import Mathlib

set_option maxRecDepth 8000

/- Shallow embedding of the two scripts of the moorl/github-actions repository:
   `.github/actions/render-markdown/scripts/render_markdown_templates.py` (a recursive
   Markdown template renderer with `{file:...}` includes and `{var:...}` variables) and
   `scripts/moori_plugin_store_info.py` (a store-sync script; we model the media
   upload/deduplication logic of `ShopwareClient`).

   Text is modelled as `List Char` (Python `str`), filesystem paths as lists of
   components from the root (absolute paths), the filesystem as an association list
   from canonical paths to file contents, and Python dicts as association lists with
   in-place overwrite.  `abort` / `sys.exit` is modelled as `Except.error`. -/

abbrev Str : Type := List Char

abbrev FsPath : Type := List Str

abbrev Fs : Type := List (FsPath × Str)

abbrev VarDict : Type := List (Str × Str)

/-- Filesystem read: first entry whose (canonical) path matches. -/
def fsRead : Fs → FsPath → Option Str
  | [], _ => none
  | e :: rest, p => if e.1 = p then some e.2 else fsRead rest p

/-- Filesystem write (`Path.write_text`): overwrite in place or append a new entry. -/
def fsWrite : Fs → FsPath → Str → Fs
  | [], p, v => [(p, v)]
  | e :: rest, p, v => if e.1 = p then (p, v) :: rest else e :: fsWrite rest p v

/-- Python dict lookup `d[k]` / `k in d` (first matching key). -/
def dget : VarDict → Str → Option Str
  | [], _ => none
  | e :: rest, k => if e.1 = k then some e.2 else dget rest k

/-- Python dict assignment `d[k] = v`: overwrite in place, else append. -/
def dset : VarDict → Str → Str → VarDict
  | [], k, v => [(k, v)]
  | e :: rest, k, v => if e.1 = k then (k, v) :: rest else e :: dset rest k v

/-- Python `d.setdefault(k, v)`: only inserts when the key is absent. -/
def dsetdefault (d : VarDict) (k v : Str) : VarDict :=
  match dget d k with
  | some _ => d
  | none => d ++ [(k, v)]

/-- Python `str.strip()` whitespace predicate (ASCII whitespace). -/
def isPySpace (c : Char) : Bool :=
  c = ' ' || c = '\t' || c = '\n' || c = '\r' || c = '\x0b' || c = '\x0c'

/-- Python `str.strip()`. -/
def trimStr (s : Str) : Str :=
  ((s.dropWhile isPySpace).reverse.dropWhile isPySpace).reverse

/- ---------------------------------------------------------------------------
   Path resolution (pathlib semantics, symlink-free).
   A path component equal to "", "." or ".." is special; `normStep` is the
   lexical normalization performed by `Path.resolve()` on a rooted path.
--------------------------------------------------------------------------- -/

/-- One-pass lexical normalization of path components against an accumulator. -/
def normStep (acc : List Str) : List Str → List Str
  | [] => acc
  | c :: rest =>
    if c = ([] : Str) then normStep acc rest
    else if c = ".".data then normStep acc rest
    else if c = "..".data then normStep acc.dropLast rest
    else normStep (acc ++ [c]) rest

/-- `Path.resolve()` on an absolute path: normalize away "", "." and "..". -/
def canonPath (p : FsPath) : FsPath := normStep [] p

/-- A component that survives normalization. -/
def isNormalComp (c : Str) : Bool :=
  !(c = ([] : Str) || c = ".".data || c = "..".data)

def isNormalPath (p : FsPath) : Bool := p.all isNormalComp

/-- Split a string on '/' characters. -/
def splitOnSlash : Str → List Str
  | [] => [[]]
  | c :: rest =>
    if c = '/' then [] :: splitOnSlash rest
    else
      match splitOnSlash rest with
      | [] => [[c]]
      | g :: gs => (c :: g) :: gs

/-- Path components of a relative-path string (pathlib drops empty components). -/
def splitComponents (s : Str) : List Str :=
  (splitOnSlash s).filter (fun c => !(c = ([] : Str)))

/-- pathlib `base / rel`: a `rel` starting with '/' replaces the base entirely. -/
def joinRel (base : FsPath) (rel : Str) : FsPath :=
  match rel with
  | '/' :: _ => splitComponents rel
  | _ => base ++ splitComponents rel

/- ---------------------------------------------------------------------------
   Renderer: render_markdown_templates.py
--------------------------------------------------------------------------- -/

/-- `resolve_include_path(current_tpl, rel, snippets_dir)` (lines 25-29):
    strip, dispatch on the "snippets/" prefix, then join and resolve. -/
def resolve_include_path (currentTpl : FsPath) (rel : Str) (snippetsDir : FsPath) : FsPath :=
  let rel' := trimStr rel
  if rel'.take 9 = "snippets/".data then
    canonPath (joinRel snippetsDir (rel'.drop 9))
  else
    canonPath (joinRel currentTpl.dropLast rel')

/-- `".tpl." in name` (line 48). -/
def hasTplSegment : Str → Bool
  | '.' :: 't' :: 'p' :: 'l' :: '.' :: _ => true
  | _ :: rest => hasTplSegment rest
  | [] => false

/-- `name.replace(".tpl.", ".")` (lines 49 and 152): replace every non-overlapping
    occurrence, scanning left to right. -/
def replaceTplDot : Str → Str
  | '.' :: 't' :: 'p' :: 'l' :: '.' :: rest => '.' :: replaceTplDot rest
  | c :: rest => c :: replaceTplDot rest
  | [] => []

/-- `p.name` (last path component). -/
def fileNameOf (p : FsPath) : Str := p.getLastD []

/-- `p.with_name n`. -/
def withFileName (p : FsPath) (n : Str) : FsPath := p.dropLast ++ [n]

/-- Derived output path of a template: `p.with_name(p.name.replace(".tpl.", "."))`. -/
def tplOutPath (p : FsPath) : FsPath := withFileName p (replaceTplDot (fileNameOf p))

/-- Match of `INCLUDE_RE = \{file:([^\}]+)\}` anchored at the start of `s`:
    the literal "{file:", a nonempty greedy run of non-'}' characters, then '}'.
    Returns the group and the remainder after the match. -/
def matchIncludeAt (s : Str) : Option (Str × Str) :=
  if s.take 6 = "\x7bfile:".data then
    let after := s.drop 6
    let inner := after.takeWhile (fun c => !(c = '}'))
    if inner = ([] : Str) then none
    else
      match after.drop inner.length with
      | '}' :: rest => some (inner, rest)
      | _ => none
  else none

/-- Leftmost match of `INCLUDE_RE` in `s`: `(text before, group, text after)`. -/
def findInclude : Str → Option (Str × Str × Str)
  | [] => none
  | c :: rest =>
    match matchIncludeAt (c :: rest) with
    | some (inner, after) => some ([], inner, after)
    | none =>
      match findInclude rest with
      | none => none
      | some (pre, inner, after) => some (c :: pre, inner, after)

/-- `VAR_RE = \{var:([a-zA-Z0-9_\-]+)\}` character class. -/
def isVarChar (c : Char) : Bool := c.isAlpha || c.isDigit || c = '_' || c = '-'

/-- Match of `VAR_RE` anchored at the start of `s`. -/
def matchVarAt (s : Str) : Option (Str × Str) :=
  if s.take 5 = "\x7bvar:".data then
    let after := s.drop 5
    let inner := after.takeWhile isVarChar
    if inner = ([] : Str) then none
    else
      match after.drop inner.length with
      | '}' :: rest => some (inner, rest)
      | _ => none
  else none

/-- Leftmost match of `VAR_RE` in `s`. -/
def findVar : Str → Option (Str × Str × Str)
  | [] => none
  | c :: rest =>
    match matchVarAt (c :: rest) with
    | some (inner, after) => some ([], inner, after)
    | none =>
      match findVar rest with
      | none => none
      | some (pre, inner, after) => some (c :: pre, inner, after)

/-- The fatal errors of the renderer (`abort` calls). -/
inductive RenderError where
  /-- `Datei nicht gefunden` -/
  | fileNotFound (p : FsPath)
  /-- `Include-Tiefe überschritten` -/
  | depthExceeded (p : FsPath)
  /-- `Zyklischer Include erkannt` -/
  | cycleDetected (p : FsPath)
  /-- `Variable nicht definiert` -/
  | undefinedVar (name : Str) (p : FsPath)
deriving DecidableEq

/-- One include replacement (`_include_repl`, lines 45-52): resolve the path; a
    target whose name contains ".tpl." is recursively rendered to its derived
    output path and that output is read back; otherwise the file is inlined
    verbatim.  `render` is the recursive entry (filesystem, template path,
    output path, seen set). -/
def includeOne
    (render : Fs → FsPath → FsPath → List FsPath → Except RenderError (Fs × List FsPath))
    (fs : Fs) (seen : List FsPath) (tplPath snippetsDir : FsPath) (inner : Str) :
    Except RenderError (Str × Fs × List FsPath) :=
  let rel := trimStr inner
  let incPath := resolve_include_path tplPath rel snippetsDir
  if hasTplSegment (fileNameOf incPath) then
    let tmpOut := tplOutPath incPath
    match render fs incPath tmpOut seen with
    | .error e => .error e
    | .ok (fs1, seen1) =>
      match fsRead fs1 (canonPath tmpOut) with
      | none => .error (.fileNotFound tmpOut)
      | some content => .ok (content, fs1, seen1)
  else
    match fsRead fs (canonPath incPath) with
    | none => .error (.fileNotFound incPath)
    | some content => .ok (content, fs, seen)

/-- `INCLUDE_RE.sub(_include_repl, source)` (line 54): replace each non-overlapping
    leftmost match, left to right; replacement text is not rescanned.  The fuel is
    an upper bound on the number of matches (callers pass `text.length + 1`). -/
def subIncludesGo
    (render : Fs → FsPath → FsPath → List FsPath → Except RenderError (Fs × List FsPath))
    (tplPath snippetsDir : FsPath) :
    Nat → Fs → List FsPath → Str → Except RenderError (Str × Fs × List FsPath)
  | 0, fs, seen, text => .ok (text, fs, seen)
  | fuel + 1, fs, seen, text =>
    match findInclude text with
    | none => .ok (text, fs, seen)
    | some (pre, inner, after) =>
      match includeOne render fs seen tplPath snippetsDir inner with
      | .error e => .error e
      | .ok (content, fs1, seen1) =>
        match subIncludesGo render tplPath snippetsDir fuel fs1 seen1 after with
        | .error e => .error e
        | .ok (tailText, fs2, seen2) => .ok (pre ++ content ++ tailText, fs2, seen2)

/-- `VAR_RE.sub(_var_repl, rendered)` (lines 57-63): each variable marker is
    replaced by its value; an undefined variable is a fatal error naming the
    variable and the originating document. -/
def subVarsGo (vars : VarDict) (tplPath : FsPath) :
    Nat → Str → Except RenderError Str
  | 0, text => .ok text
  | fuel + 1, text =>
    match findVar text with
    | none => .ok text
    | some (pre, name, after) =>
      let k := trimStr name
      match dget vars k with
      | none => .error (.undefinedVar k tplPath)
      | some v =>
        match subVarsGo vars tplPath fuel after with
        | .error e => .error e
        | .ok tailText => .ok (pre ++ v ++ tailText)

/-- The ordered list of `INCLUDE_RE` match groups of a document (same iteration
    scheme as `subIncludesGo`). -/
def includeMarkersGo : Nat → Str → List Str
  | 0, _ => []
  | fuel + 1, text =>
    match findInclude text with
    | none => []
    | some (_, inner, after) => inner :: includeMarkersGo fuel after

def includeMarkersOf (s : Str) : List Str := includeMarkersGo (s.length + 1) s

/-- The ordered list of `VAR_RE` match groups of a document. -/
def varMarkersGo : Nat → Str → List Str
  | 0, _ => []
  | fuel + 1, text =>
    match findVar text with
    | none => []
    | some (_, inner, after) => inner :: varMarkersGo fuel after

def varMarkersOf (s : Str) : List Str := varMarkersGo (s.length + 1) s

/-- `render_template` (lines 31-67).  The fuel argument only drives the
    structural recursion; callers maintain `fuel = maxDepth + 1 - depth`, under
    which the fuel-0 fallback coincides with the `depth > max_depth` guard (at
    depth ≤ maxDepth the fuel is positive).  Order of checks follows the source:
    depth guard, cycle check on the canonical path, file read, include pass,
    variable pass, output write. -/
def renderGo :
    Nat → Fs → FsPath → FsPath → FsPath → VarDict → List FsPath → Nat → Nat →
    Except RenderError (Fs × List FsPath)
  | 0, _, tplPath, _, _, _, seen, depth, maxDepth =>
    if maxDepth < depth then .error (.depthExceeded tplPath)
    else if canonPath tplPath ∈ seen then .error (.cycleDetected tplPath)
    else .error (.depthExceeded tplPath)
  | fuel + 1, fs, tplPath, outPath, snippetsDir, vars, seen, depth, maxDepth =>
    if maxDepth < depth then .error (.depthExceeded tplPath)
    else if canonPath tplPath ∈ seen then .error (.cycleDetected tplPath)
    else
      match fsRead fs (canonPath tplPath) with
      | none => .error (.fileNotFound tplPath)
      | some source =>
        match subIncludesGo
            (fun fs2 tpl2 out2 seen2 =>
              renderGo fuel fs2 tpl2 out2 snippetsDir vars seen2 (depth + 1) maxDepth)
            tplPath snippetsDir (source.length + 1) fs (canonPath tplPath :: seen) source with
        | .error e => .error e
        | .ok (rendered, fs1, seen1) =>
          match subVarsGo vars tplPath (rendered.length + 1) rendered with
          | .error e => .error e
          | .ok finalText => .ok (fsWrite fs1 (canonPath outPath) finalText, seen1)

/-- Top-level `render_template(tpl, out, snippets_dir, variables)`: fresh `seen`
    set per invocation, depth 0. -/
def render_template (fs : Fs) (templatePath outPath snippetsDir : FsPath)
    (vars : VarDict) (maxDepth : Nat) : Except RenderError (Fs × List FsPath) :=
  renderGo (maxDepth + 1) fs templatePath outPath snippetsDir vars [] 0 maxDepth

/-- The error of a run, if any. -/
def resultError : Except RenderError (Fs × List FsPath) → Option RenderError
  | .error e => some e
  | .ok _ => none

/-- On success, the content of the file at `p` in the final filesystem. -/
def okOutRead (r : Except RenderError (Fs × List FsPath)) (p : FsPath) : Option Str :=
  match r with
  | .ok (fs, _) => fsRead fs p
  | .error _ => none

/- ---------------------------------------------------------------------------
   Variable mapping assembly: load_vars (lines 82-102) and merge_vars (125-130).
--------------------------------------------------------------------------- -/

inductive LoadError where
  /-- `Ungültiges --var Format` -/
  | invalidVarArg (arg : Str)
deriving DecidableEq

/-- `arg.split("=", 1)` when '=' occurs in `arg`. -/
def parseVarArg (arg : Str) : Option (Str × Str) :=
  if '=' ∈ arg then
    some (arg.takeWhile (fun c => !(c = '=')),
          (arg.dropWhile (fun c => !(c = '='))).drop 1)
  else none

/-- The loop over `--var` arguments (lines 84-88): `result[k] = v` in order. -/
def loadCliVars : List Str → VarDict → Except LoadError VarDict
  | [], acc => .ok acc
  | arg :: rest, acc =>
    match parseVarArg arg with
    | none => .error (.invalidVarArg arg)
    | some kv => loadCliVars rest (dset acc kv.1 kv.2)

/-- `result.update(extra)` (line 101): every key of the parsed vars file is
    assigned over the CLI-built dict, in file order. -/
def applyFileVars (extra : List (Str × Str)) (d : VarDict) : VarDict :=
  extra.foldl (fun acc kv => dset acc kv.1 kv.2) d

/-- `load_vars(var_args, vars_file)` (lines 82-102).  Parsing of the JSON/YAML
    vars file and its existence/shape checks are abstracted: `fileVars` is the
    already-parsed mapping (`none` when no `--vars-file` was given). -/
def load_vars (varArgs : List Str) (fileVars : Option (List (Str × Str))) :
    Except LoadError VarDict :=
  match loadCliVars varArgs [] with
  | .error e => .error e
  | .ok result =>
    match fileVars with
    | none => .ok result
    | some extra => .ok (applyFileVars extra result)

/-- `merge_vars(user_vars, repo_root)` (lines 125-130): `setdefault` the three
    computed defaults.  The derivations (`derive_repo_name` from the environment,
    `derive_branch_name`, `derive_version` from composer.json) are passed as the
    already-computed values. -/
def merge_vars (userVars : VarDict) (repoName branchName version : Str) : VarDict :=
  dsetdefault (dsetdefault (dsetdefault userVars "repo_name".data repoName)
    "branch_name".data branchName) "version".data version

/-- Last value associated with `k` in a key/value list (dict-literal semantics:
    a later duplicate key overwrites an earlier one). -/
def lastAssoc : List (Str × Str) → Str → Option Str
  | [], _ => none
  | kv :: rest, k =>
    match lastAssoc rest k with
    | some v => some v
    | none => if kv.1 = k then some kv.2 else none

/- ---------------------------------------------------------------------------
   Store sync: media upload and de-duplication (moori_plugin_store_info.py).
--------------------------------------------------------------------------- -/

/-- A remote media record.  `fileName`/`fileExt` are set by the upload endpoint;
    a freshly created record has none.  `content` is the uploaded binary. -/
structure MediaRecord where
  mid : Str
  fileName : Option Str
  fileExt : Option Str
  content : Option Str
deriving DecidableEq

abbrev MediaStore : Type := List MediaRecord

/-- ASCII `str.lower()`. -/
def lowerChar (c : Char) : Char :=
  if 'A' ≤ c ∧ c ≤ 'Z' then Char.ofNat (c.toNat + 32) else c

def lowerStr (s : Str) : Str := s.map lowerChar

/-- `search_media_by_name(file_stem, ext)` (lines 183-197): first media record
    whose `fileName` equals the stem and whose `fileExtension` equals
    `ext.lower()`, returning its id. -/
def search_media_by_name : MediaStore → Str → Str → Option Str
  | [], _, _ => none
  | r :: rest, stem, ext =>
    if r.fileName = some stem ∧ r.fileExt = some (lowerStr ext) then some r.mid
    else search_media_by_name rest stem ext

/-- `POST /api/media` with a chosen id (lines 236-240): creates an empty record. -/
def createMedia (st : MediaStore) (mid : Str) : MediaStore :=
  st ++ [{ mid := mid, fileName := none, fileExt := none, content := none }]

inductive UploadOutcome where
  /-- `CONTENT__MEDIA_DUPLICATED_FILE_NAME` -/
  | dupName
  | notFound
deriving DecidableEq

/-- `POST /api/_action/media/{id}/upload?extension=..&fileName=..`: fails with a
    duplicate-name conflict when a different record already carries the name,
    otherwise attaches the file to the record. -/
def uploadEndpoint (st : MediaStore) (mid : Str) (stem ext : Str) (content : Str) :
    Except UploadOutcome MediaStore :=
  if st.any (fun r => !(r.mid = mid) && r.fileName = some stem && r.fileExt = some ext) then
    .error .dupName
  else if st.any (fun r => r.mid = mid) then
    .ok (st.map (fun r =>
      if r.mid = mid then
        { r with fileName := some stem, fileExt := some ext, content := some content }
      else r))
  else .error .notFound

inductive SyncError where
  /-- `Datei ist leer` -/
  | emptyFile
  /-- `Media-Upload (replace) fehlgeschlagen` -/
  | uploadReplaceFailed
  /-- `Media-Upload fehlgeschlagen` -/
  | uploadFailed
  /-- `Media-Upload fehlgeschlagen (Retry)` -/
  | uploadRetryFailed
deriving DecidableEq

/-- `ext = (file_path.suffix.lstrip(".") or "png").lower()` (line 208). -/
def extOf (sfx : Str) : Str :=
  let s := sfx.dropWhile (fun c => c = '.')
  lowerStr (match s with | [] => "png".data | _ => s)

/-- The synthetic media name `f"{repo_name}__{base_stem}"` (line 209). -/
def synthStem (repoName baseStem : Str) : Str :=
  repoName ++ "__".data ++ baseStem

/-- `ShopwareClient.upload_media(file_path, repo_name)` (lines 199-275).
    `freshId` stands for `uuid4().hex`; `baseStem`/`sfx` are `file_path.stem`
    and `file_path.suffix`; `content` is the file's bytes (nonempty iff the
    `size == 0` guard passes). -/
def upload_media (st : MediaStore) (freshId : Str) (repoName baseStem sfx : Str)
    (content : Str) : Except SyncError (Str × MediaStore) :=
  let ext := extOf sfx
  let fileStem := synthStem repoName baseStem
  if content = ([] : Str) then .error .emptyFile
  else
    match search_media_by_name st fileStem ext with
    | some existingId =>
      match uploadEndpoint st existingId fileStem ext content with
      | .ok st1 => .ok (existingId, st1)
      | .error _ => .error .uploadReplaceFailed
    | none =>
      let mediaId := freshId
      let st1 := createMedia st mediaId
      match uploadEndpoint st1 mediaId fileStem ext content with
      | .ok st2 => .ok (mediaId, st2)
      | .error .dupName =>
        let altStem := fileStem ++ "-".data ++ mediaId.take 8
        match uploadEndpoint st1 mediaId altStem ext content with
        | .ok st2 => .ok (mediaId, st2)
        | .error _ => .error .uploadRetryFailed
      | .error .notFound => .error .uploadFailed

/-- Content of the media record with a given id, if present. -/
def mediaContentById : MediaStore → Str → Option (Option Str)
  | [], _ => none
  | r :: rest, mid => if r.mid = mid then some r.content else mediaContentById rest mid

/-- The record update performed by the upload endpoint on the matching id. -/
def updMedia (e stem ext content : Str) (r : MediaRecord) : MediaRecord :=
  if r.mid = e then
    { r with fileName := some stem, fileExt := some ext, content := some content }
  else r

/- -------------------- concrete instances for the claim theorems ------------ -/

/-- C7 instance: template `a.tpl.md`. -/
def exTpl7 : FsPath := ["repo".data, "docs".data, "a.tpl.md".data]

def exSnip7 : FsPath := ["repo".data, "snip".data]

def exFs7 : Fs :=
  [(exTpl7, "Hello \x7bvar:name\x7d, see \x7bfile:snippets/b.md\x7d".data),
   (["repo".data, "snip".data, "b.md".data], "World".data)]

def exVars7 : VarDict := [("name".data, "Ada".data)]

def exOut7 : FsPath := ["repo".data, "docs".data, "a.md".data]

/-- C2 instance: `r.tpl.md` includes the same acyclic template twice as siblings;
    `s.tpl.md` includes it once. -/
def exTplC2 : FsPath := ["repo".data, "r.tpl.md".data]

def exTplC2s : FsPath := ["repo".data, "s.tpl.md".data]

def exIncC2 : FsPath := ["repo".data, "a.tpl.md".data]

def exFsC2 : Fs :=
  [(exTplC2, "\x7bfile:a.tpl.md\x7d\x7bfile:a.tpl.md\x7d".data),
   (exTplC2s, "\x7bfile:a.tpl.md\x7d".data),
   (exIncC2, "x".data)]

def exSnipC2 : FsPath := ["repo".data, "snippets".data]

/-- C6 witness instance. -/
def exTplC6 : FsPath := ["d".data, "t.tpl.md".data]

def exOutC6 : FsPath := ["d".data, "t.md".data]

def exFsC6 : Fs := [(exTplC6, "hi".data)]

/-- C9 witness instance: `p.tpl.md` includes the renderable `c.tpl.md`. -/
def exTplC9 : FsPath := ["repo".data, "p.tpl.md".data]

def exIncC9 : FsPath := ["repo".data, "c.tpl.md".data]

def exFsC9 : Fs :=
  [(exTplC9, "\x7bfile:c.tpl.md\x7d".data), (exIncC9, "y".data)]

/- C3 instance family: an acyclic chain of N nested template includes.
   Template i is `c` followed by i times `x` then `.tpl.md`; for i < N it
   includes template i+1, template N is the plain text `done`. -/

def cname (i : Nat) : Str := 'c' :: (List.replicate i 'x' ++ ".tpl.md".data)

def coutName (i : Nat) : Str := 'c' :: (List.replicate i 'x' ++ ".md".data)

def chainTplPath (i : Nat) : FsPath := ["repo".data, cname i]

def chainOutPath (i : Nat) : FsPath := ["repo".data, coutName i]

def chainDoc (N i : Nat) : Str :=
  if i < N then '{' :: 'f' :: 'i' :: 'l' :: 'e' :: ':' :: (cname (i + 1) ++ ['}'])
  else "done".data

def chainFs (N : Nat) : Fs :=
  (List.range (N + 1)).map (fun i => (chainTplPath i, chainDoc N i))

def chainSnip : FsPath := ["sn".data]

example : trimStr "  ab c ".data = "ab c".data := by decide

example : canonPath ["a".data, ".".data, "b".data, "..".data, "c".data] =
    ["a".data, "c".data] := by decide

example : replaceTplDot "a.tpl.md".data = "a.md".data := by decide

example : hasTplSegment "a.tpl.md".data = true := by decide

example : findVar "x \x7bvar:name\x7d y".data =
    some ("x ".data, "name".data, " y".data) := by decide

example : findInclude "a \x7bfile:snippets/b.md\x7d z".data =
    some ("a ".data, "snippets/b.md".data, " z".data) := by decide

/- ------------------------- helper lemmas: fs and dict ---------------------- -/

theorem fsRead_fsWrite_self (fs : Fs) (p : FsPath) (v : Str) :
    fsRead (fsWrite fs p v) p = some v := by
  induction fs with
  | nil => simp [fsRead, fsWrite]
  | cons e rest ih =>
    by_cases h : e.1 = p
    · simp [fsWrite, h, fsRead]
    · simp [fsWrite, h, fsRead, ih]

theorem fsRead_fsWrite_ne (fs : Fs) (p q : FsPath) (v : Str) (h : q ≠ p) :
    fsRead (fsWrite fs p v) q = fsRead fs q := by
  have hpq : p ≠ q := fun hh => h hh.symm
  induction fs with
  | nil => simp [fsRead, fsWrite, hpq]
  | cons e rest ih =>
    by_cases he : e.1 = p
    · simp [fsWrite, fsRead, he, hpq]
    · simp [fsWrite, he, fsRead, ih]

theorem fsRead_fsWrite_isSome (fs : Fs) (p q : FsPath) (v : Str)
    (h : (fsRead fs q).isSome = true) :
    (fsRead (fsWrite fs p v) q).isSome = true := by
  by_cases hq : q = p
  · subst hq; simp [fsRead_fsWrite_self]
  · rw [fsRead_fsWrite_ne fs p q v hq]; exact h

theorem dget_dset (d : VarDict) (k0 v0 : Str) (k : Str) :
    dget (dset d k0 v0) k = if k = k0 then some v0 else dget d k := by
  induction d with
  | nil =>
    by_cases h : k = k0
    · simp [dget, dset, h]
    · have h' : ¬ k0 = k := fun hh => h hh.symm
      simp [dget, dset, h, h']
  | cons e rest ih =>
    by_cases he : e.1 = k0
    · by_cases h : k = k0
      · subst h; simp [dset, he, dget]
      · have h' : ¬ k0 = k := fun hh => h hh.symm
        simp [dset, dget, he, h, h']
    · by_cases h : e.1 = k
      · have hk : ¬ k = k0 := fun hh => he (hh ▸ h)
        simp [dset, he, dget, h, hk]
      · simp [dset, he, dget, h, ih]

theorem dget_append_isSome (d e : VarDict) (k : Str)
    (h : (dget d k).isSome = true) : dget (d ++ e) k = dget d k := by
  induction d with
  | nil => simp [dget] at h
  | cons x rest ih =>
    by_cases hx : x.1 = k
    · simp [dget, hx]
    · simp [dget, hx] at h ⊢; exact ih h

/- ------------------------- helper lemmas: path normalization --------------- -/

theorem normStep_append (l1 l2 : List Str) : ∀ acc,
    normStep acc (l1 ++ l2) = normStep (normStep acc l1) l2 := by
  induction l1 with
  | nil => intro acc; simp [normStep]
  | cons c rest ih =>
    intro acc
    simp only [List.cons_append, normStep]
    split_ifs <;> apply ih

theorem normStep_no_special (l : List Str) (hl : ∀ c ∈ l, isNormalComp c = true) :
    ∀ acc, normStep acc l = acc ++ l := by
  induction l with
  | nil => intro acc; simp [normStep]
  | cons c rest ih =>
    intro acc
    have hc := hl c (by simp)
    simp only [isNormalComp, Bool.not_eq_true', Bool.or_eq_false_iff, decide_eq_false_iff_not] at hc
    simp only [normStep, if_neg hc.1.1, if_neg hc.1.2, if_neg hc.2]
    rw [ih (fun x hx => hl x (by simp [hx]))]
    simp

theorem normStep_all_normal (l : List Str) :
    ∀ acc, (∀ c ∈ acc, isNormalComp c = true) →
      ∀ c ∈ normStep acc l, isNormalComp c = true := by
  induction l with
  | nil => intro acc hacc; simpa [normStep] using hacc
  | cons c rest ih =>
    intro acc hacc
    simp only [normStep]
    split_ifs with h1 h2 h3
    · exact ih acc hacc
    · exact ih acc hacc
    · exact ih acc.dropLast (fun x hx => hacc x (List.dropLast_subset _ hx))
    · refine ih (acc ++ [c]) (fun x hx => ?_)
      rcases List.mem_append.mp hx with hx | hx
      · exact hacc x hx
      · simp only [List.mem_singleton] at hx
        subst hx
        simp [isNormalComp, h1, h2, h3]

theorem canonPath_normal (p : FsPath) : isNormalPath (canonPath p) = true := by
  have := normStep_all_normal p [] (by simp)
  simpa [isNormalPath, List.all_eq_true, canonPath] using this

theorem canonPath_of_normal (p : FsPath) (h : isNormalPath p = true) :
    canonPath p = p := by
  have h' : ∀ c ∈ p, isNormalComp c = true := by
    simpa [isNormalPath, List.all_eq_true] using h
  simpa [canonPath] using normStep_no_special p h' []

theorem canonPath_idem (p : FsPath) : canonPath (canonPath p) = canonPath p :=
  canonPath_of_normal _ (canonPath_normal p)

theorem normStep_single_dot (acc : List Str) : normStep acc [".".data] = acc := by
  simp [normStep]

theorem normStep_up_cancel (acc : List Str) (c : Str)
    (h1 : c ≠ ([] : Str)) (h2 : c ≠ ".".data) (h3 : c ≠ "..".data) :
    normStep acc [c, "..".data] = acc := by
  simp [normStep, h1, h2, h3]

theorem canonPath_dot (base xs ys : List Str) :
    canonPath (base ++ xs ++ [".".data] ++ ys) = canonPath (base ++ xs ++ ys) := by
  unfold canonPath
  rw [normStep_append, normStep_append, normStep_append, normStep_append,
    normStep_single_dot]
  congr 1
  rw [normStep_append]

theorem canonPath_dotdot (base xs : List Str) (c : Str) (ys : List Str)
    (h1 : c ≠ ([] : Str)) (h2 : c ≠ ".".data) (h3 : c ≠ "..".data) :
    canonPath (base ++ xs ++ [c, "..".data] ++ ys) = canonPath (base ++ xs ++ ys) := by
  unfold canonPath
  rw [normStep_append, normStep_append, normStep_append, normStep_append,
    normStep_up_cancel _ c h1 h2 h3]
  congr 1
  rw [normStep_append]

theorem dget_append_of_none (d e : VarDict) (k : Str) (h : dget d k = none) :
    dget (d ++ e) k = dget e k := by
  induction d with
  | nil => simp
  | cons x rest ih =>
    by_cases hx : x.1 = k
    · simp [dget, hx] at h
    · simp [dget, hx] at h ⊢; exact ih h

theorem dget_dsetdefault_isSome (d : VarDict) (k0 v : Str) (k : Str)
    (h : (dget d k).isSome = true) : dget (dsetdefault d k0 v) k = dget d k := by
  unfold dsetdefault
  cases hk0 : dget d k0 with
  | some _ => rfl
  | none => exact dget_append_isSome d [(k0, v)] k h

theorem dget_dsetdefault_fill (d : VarDict) (k0 v : Str) (h : dget d k0 = none) :
    dget (dsetdefault d k0 v) k0 = some v := by
  unfold dsetdefault
  rw [h, dget_append_of_none d [(k0, v)] k0 h]
  simp [dget]

theorem dget_merge_vars_of_isSome (uv : VarDict) (rn bn vv : Str) (k : Str)
    (h : (dget uv k).isSome = true) : dget (merge_vars uv rn bn vv) k = dget uv k := by
  unfold merge_vars
  rw [dget_dsetdefault_isSome, dget_dsetdefault_isSome, dget_dsetdefault_isSome]
  · exact h
  · rw [dget_dsetdefault_isSome _ _ _ _ h]; exact h
  · rw [dget_dsetdefault_isSome, dget_dsetdefault_isSome] <;>
      first
        | exact h
        | (rw [dget_dsetdefault_isSome _ _ _ _ h]; exact h)

theorem dget_applyFileVars (extra : List (Str × Str)) (d : VarDict) (k : Str) :
    dget (applyFileVars extra d) k =
      (match lastAssoc extra k with
       | some v => some v
       | none => dget d k) := by
  induction extra generalizing d with
  | nil => simp [applyFileVars, lastAssoc]
  | cons kv rest ih =>
    have hfold : applyFileVars (kv :: rest) d = applyFileVars rest (dset d kv.1 kv.2) := rfl
    rw [hfold, ih]
    cases h : lastAssoc rest k with
    | some v => simp [lastAssoc, h]
    | none =>
      simp only [lastAssoc, h, dget_dset]
      by_cases hk : k = kv.1
      · subst hk; simp
      · have hk' : ¬ kv.1 = k := fun hh => hk hh.symm
        simp [hk, hk']

/-- C1 (counterexample): with `--var k=cli` and a mapping file defining `k: file`,
    the merged mapping used for rendering maps `k` to the FILE value, not the CLI
    value — refuting the claim that a CLI-supplied `key=value` takes precedence
    over the same key in the mapping file. -/
theorem C1_counterexample :
    load_vars ["k=cli".data] (some [("k".data, "file".data)]) =
      .ok [("k".data, "file".data)] ∧
    dget (merge_vars [("k".data, "file".data)] "r".data "b".data "v".data) "k".data =
      some "file".data ∧
    ¬ dget (merge_vars [("k".data, "file".data)] "r".data "b".data "v".data) "k".data =
      some "cli".data :=
  ⟨rfl, by decide, by decide⟩

/-- C1 (amended): in `load_vars`, the mapping file is applied on top of the CLI
    pairs, so for every key defined in the mapping file the merged value is the
    file's (last) value; a key not defined in the file keeps the value built from
    the `--var` arguments; and `merge_vars` only fills computed defaults for keys
    that are still absent, so any user-supplied value survives merging. -/
theorem C1_amended_precedence :
    (∀ (varArgs : List Str) (extra : List (Str × Str)) (d : VarDict) (k v : Str),
      load_vars varArgs (some extra) = .ok d → lastAssoc extra k = some v →
      dget d k = some v) ∧
    (∀ (varArgs : List Str) (extra : List (Str × Str)) (acc d : VarDict) (k : Str),
      loadCliVars varArgs [] = .ok acc → load_vars varArgs (some extra) = .ok d →
      lastAssoc extra k = none → dget d k = dget acc k) ∧
    (∀ (uv : VarDict) (rn bn vv k : Str), (dget uv k).isSome = true →
      dget (merge_vars uv rn bn vv) k = dget uv k) := by
  refine ⟨?_, ?_, ?_⟩
  · intro varArgs extra d k v hld hk
    unfold load_vars at hld
    cases hcli : loadCliVars varArgs [] with
    | error e => rw [hcli] at hld; exact absurd hld (by simp)
    | ok acc =>
      rw [hcli] at hld
      simp only [Except.ok.injEq] at hld
      subst hld
      rw [dget_applyFileVars, hk]
  · intro varArgs extra acc d k hcli hld hk
    unfold load_vars at hld
    rw [hcli] at hld
    simp only [Except.ok.injEq] at hld
    subst hld
    rw [dget_applyFileVars, hk]
  · intro uv rn bn vv k h
    exact dget_merge_vars_of_isSome uv rn bn vv k h

/-- C1 (witness for the amended theorem): concrete instances of all three parts. -/
theorem C1_amended_precedence_witness :
    dget [("a".data, "2".data)] "a".data = some "2".data ∧
    dget [("a".data, "1".data), ("b".data, "3".data), ("z".data, "9".data)] "b".data =
      dget [("a".data, "1".data), ("b".data, "3".data)] "b".data ∧
    dget (merge_vars [("k".data, "u".data)] "r".data "b".data "v".data) "k".data =
      dget [("k".data, "u".data)] "k".data :=
  ⟨C1_amended_precedence.1 ["a=1".data] [("a".data, "2".data)] _ "a".data "2".data
      rfl (by decide),
   C1_amended_precedence.2.1 ["a=1".data, "b=3".data] [("z".data, "9".data)]
      [("a".data, "1".data), ("b".data, "3".data)]
      [("a".data, "1".data), ("b".data, "3".data), ("z".data, "9".data)] "b".data
      rfl rfl (by decide),
   C1_amended_precedence.2.2 [("k".data, "u".data)] "r".data "b".data "v".data
      "k".data (by decide)⟩

/-- C2 (code behavior): the claim — and the spec — say the cycle-detection set
    holds only the paths on the active recursion chain, so two sibling includes
    of the same acyclic template both expand.  The code never removes a path
    from `seen` after its render completes, so the second sibling include of
    `a.tpl.md` aborts with the cycle error even though the include graph is
    acyclic (rendering `s.tpl.md`, which includes `a.tpl.md` once, succeeds;
    and a fresh top-level invocation is unaffected, showing per-invocation
    scoping).  This contradicts the code's own error message (`Zyklischer
    Include erkannt`): no cycle exists at this input. -/
theorem C2_code_behavior :
    resultError (render_template exFsC2 exTplC2 (tplOutPath exTplC2) exSnipC2 [] 20) =
      some (.cycleDetected exIncC2) ∧
    okOutRead (render_template exFsC2 exTplC2s (tplOutPath exTplC2s) exSnipC2 [] 20)
      (canonPath (tplOutPath exTplC2s)) = some "x".data :=
  ⟨by decide, by decide⟩

/-- C7: the end-to-end example.  `a.tpl.md` containing
    `Hello {var:name}, see {file:snippets/b.md}` with snippet `b.md` containing
    `World` and variable `name=Ada` renders successfully; the output path is
    `a.md` (the `.tpl.` segment stripped, exactly `main`'s derivation) and the
    output text is `Hello Ada, see World` (includes expanded before variables
    are substituted). -/
theorem C7_end_to_end :
    exOut7 = tplOutPath exTpl7 ∧
    okOutRead (render_template exFs7 exTpl7 exOut7 exSnip7 exVars7 20)
      (canonPath exOut7) = some "Hello Ada, see World".data :=
  ⟨by decide, by decide⟩

/-- C6: rendering is deterministic.  The embedding of `render_template` is a
    pure function of the input filesystem, variable mapping and paths, so two
    runs on equal inputs return the same result; in particular, when the first
    run succeeds (acyclic include graph within the depth limit), the second run
    produces the byte-identical output filesystem. -/
theorem C6_deterministic :
    ∀ (fs1 fs2 : Fs) (tpl out snip : FsPath) (vars1 vars2 : VarDict) (maxD : Nat)
      (res : Fs × List FsPath),
      fs1 = fs2 → vars1 = vars2 →
      render_template fs1 tpl out snip vars1 maxD = .ok res →
      render_template fs2 tpl out snip vars2 maxD = .ok res := by
  intro fs1 fs2 tpl out snip vars1 vars2 maxD res hfs hv h
  subst hfs; subst hv; exact h

/-- C6 (witness): a concrete successful render, replayed through the theorem. -/
theorem C6_deterministic_witness :
    render_template exFsC6 exTplC6 exOutC6 ["d".data, "sn".data] [] 5 =
      .ok ([(exTplC6, "hi".data), (exOutC6, "hi".data)], [exTplC6]) :=
  C6_deterministic exFsC6 exFsC6 exTplC6 exOutC6 ["d".data, "sn".data] [] [] 5
    ([(exTplC6, "hi".data), (exOutC6, "hi".data)], [exTplC6]) rfl rfl rfl

theorem resolve_ip_pos (tpl : FsPath) (rel : Str) (snip : FsPath)
    (h : (trimStr rel).take 9 = "snippets/".data) :
    resolve_include_path tpl rel snip = canonPath (joinRel snip ((trimStr rel).drop 9)) := by
  simp only [resolve_include_path, if_pos h]

theorem resolve_ip_neg (tpl : FsPath) (rel : Str) (snip : FsPath)
    (h : ¬ (trimStr rel).take 9 = "snippets/".data) :
    resolve_include_path tpl rel snip = canonPath (joinRel tpl.dropLast (trimStr rel)) := by
  simp only [resolve_include_path, if_neg h]

/-- C5: include path resolution.  (i)/(ii) a (stripped) include path is resolved
    against the snippets directory exactly when it starts with the designated
    prefix `snippets/`, and against the including document's own directory
    otherwise; (iii)/(iv) the result is always a fully normalized absolute path
    (no "", "." or ".." components survive) and is a fixed point of
    canonicalization — it is literally the key used by the cycle-detection set;
    (v)/(vi) canonicalization identifies different relative spellings of the
    same file: inserted "." components and "component/.." detours do not change
    the resolved path. -/
theorem C5_include_resolution :
    (∀ (tpl : FsPath) (rel : Str) (snip : FsPath),
      (trimStr rel).take 9 = "snippets/".data →
      resolve_include_path tpl rel snip = canonPath (joinRel snip ((trimStr rel).drop 9))) ∧
    (∀ (tpl : FsPath) (rel : Str) (snip : FsPath),
      ¬ (trimStr rel).take 9 = "snippets/".data →
      resolve_include_path tpl rel snip = canonPath (joinRel tpl.dropLast (trimStr rel))) ∧
    (∀ (tpl : FsPath) (rel : Str) (snip : FsPath),
      isNormalPath (resolve_include_path tpl rel snip) = true) ∧
    (∀ (tpl : FsPath) (rel : Str) (snip : FsPath),
      canonPath (resolve_include_path tpl rel snip) = resolve_include_path tpl rel snip) ∧
    (∀ (base xs ys : List Str),
      canonPath (base ++ xs ++ [".".data] ++ ys) = canonPath (base ++ xs ++ ys)) ∧
    (∀ (base xs : List Str) (c : Str) (ys : List Str),
      c ≠ ([] : Str) → c ≠ ".".data → c ≠ "..".data →
      canonPath (base ++ xs ++ [c, "..".data] ++ ys) = canonPath (base ++ xs ++ ys)) := by
  refine ⟨resolve_ip_pos, resolve_ip_neg, ?_, ?_, canonPath_dot, canonPath_dotdot⟩
  · intro tpl rel snip
    by_cases h : (trimStr rel).take 9 = "snippets/".data
    · rw [resolve_ip_pos tpl rel snip h]; exact canonPath_normal _
    · rw [resolve_ip_neg tpl rel snip h]; exact canonPath_normal _
  · intro tpl rel snip
    by_cases h : (trimStr rel).take 9 = "snippets/".data
    · rw [resolve_ip_pos tpl rel snip h]; exact canonPath_idem _
    · rw [resolve_ip_neg tpl rel snip h]; exact canonPath_idem _

/-- C5 (witness): concrete instances of the six parts. -/
theorem C5_include_resolution_witness :
    resolve_include_path ["r".data, "d".data, "x.md".data] " snippets/a.md ".data
      ["r".data, "sn".data] =
      canonPath (joinRel ["r".data, "sn".data]
        ((trimStr " snippets/a.md ".data).drop 9)) ∧
    resolve_include_path ["r".data, "d".data, "x.md".data] "../y.md".data
      ["r".data, "sn".data] =
      canonPath (joinRel (["r".data, "d".data, "x.md".data] : FsPath).dropLast
        (trimStr "../y.md".data)) ∧
    isNormalPath (resolve_include_path ["r".data, "d".data, "x.md".data]
      "../y.md".data ["r".data, "sn".data]) = true ∧
    canonPath (resolve_include_path ["r".data, "d".data, "x.md".data]
      "../y.md".data ["r".data, "sn".data]) =
      resolve_include_path ["r".data, "d".data, "x.md".data] "../y.md".data
        ["r".data, "sn".data] ∧
    canonPath (["r".data] ++ ["a".data] ++ [".".data] ++ ["c".data]) =
      canonPath (["r".data] ++ ["a".data] ++ ["c".data]) ∧
    canonPath (["r".data] ++ ["a".data] ++ ["b".data, "..".data] ++ ["c".data]) =
      canonPath (["r".data] ++ ["a".data] ++ ["c".data]) :=
  ⟨C5_include_resolution.1 _ _ _ (by decide),
   C5_include_resolution.2.1 _ _ _ (by decide),
   C5_include_resolution.2.2.1 _ _ _,
   C5_include_resolution.2.2.2.1 _ _ _,
   C5_include_resolution.2.2.2.2.1 ["r".data] ["a".data] ["c".data],
   C5_include_resolution.2.2.2.2.2 ["r".data] ["a".data] "b".data ["c".data]
     (by decide) (by decide) (by decide)⟩

theorem subVarsGo_undef (vars : VarDict) (tpl : FsPath) :
    ∀ (fuel : Nat) (text : Str),
      (∃ k, k ∈ varMarkersGo fuel text ∧ dget vars (trimStr k) = none) →
      ∃ k', subVarsGo vars tpl fuel text = .error (.undefinedVar k' tpl) ∧
        dget vars k' = none := by
  intro fuel
  induction fuel with
  | zero =>
    intro text h
    obtain ⟨k, hk, _⟩ := h
    simp [varMarkersGo] at hk
  | succ fuel ih =>
    intro text h
    obtain ⟨k, hk, hnone⟩ := h
    cases hf : findVar text with
    | none =>
      rw [show varMarkersGo (fuel + 1) text = [] by simp [varMarkersGo, hf]] at hk
      simp at hk
    | some t =>
      obtain ⟨pre, name, after⟩ := t
      cases hd : dget vars (trimStr name) with
      | none =>
        exact ⟨trimStr name, by simp [subVarsGo, hf, hd], hd⟩
      | some v =>
        have hkafter : k ∈ varMarkersGo fuel after := by
          rw [show varMarkersGo (fuel + 1) text = name :: varMarkersGo fuel after by
            simp [varMarkersGo, hf]] at hk
          rcases List.mem_cons.mp hk with hk | hk
          · subst hk; rw [hd] at hnone; exact absurd hnone (by simp)
          · exact hk
        obtain ⟨k', hsub, hn⟩ := ih after ⟨k, hkafter, hnone⟩
        refine ⟨k', ?_, hn⟩
        simp [subVarsGo, hf, hd, hsub]

/-- C4: for a document whose include pass is trivial (no `{file:...}` marker)
    and which contains a well-formed `{var:...}` marker whose (stripped) name is
    absent from the merged mapping, rendering fails with an `undefinedVar` error
    naming an undefined variable and the originating document; since the result
    is an error, no output file is written and the marker is never replaced by
    an empty string. -/
theorem C4_undefined_var_fails :
    ∀ (fs : Fs) (tpl out snip : FsPath) (vars : VarDict) (maxD : Nat) (src k : Str),
      fsRead fs (canonPath tpl) = some src →
      findInclude src = none →
      k ∈ varMarkersOf src →
      dget vars (trimStr k) = none →
      ∃ k', render_template fs tpl out snip vars maxD =
        .error (.undefinedVar k' tpl) ∧ dget vars k' = none := by
  intro fs tpl out snip vars maxD src k hsrc hnoinc hk hnone
  obtain ⟨k', hsub, hn⟩ :=
    subVarsGo_undef vars tpl (src.length + 1) src ⟨k, hk, hnone⟩
  refine ⟨k', ?_, hn⟩
  unfold render_template
  simp only [renderGo, Nat.not_lt_zero, if_false, List.not_mem_nil, hsrc,
    subIncludesGo, hnoinc, hsub]

/-- C4 (witness): the concrete document `\x7bvar:zzz\x7d` with an empty mapping. -/
theorem C4_undefined_var_fails_witness :
    ∃ k', render_template [(["w".data, "c4.tpl.md".data], "\x7bvar:zzz\x7d".data)]
        ["w".data, "c4.tpl.md".data] ["w".data, "c4.md".data] ["w".data, "sn".data]
        [] 20 = .error (.undefinedVar k' ["w".data, "c4.tpl.md".data]) ∧
      dget [] k' = none :=
  C4_undefined_var_fails
    [(["w".data, "c4.tpl.md".data], "\x7bvar:zzz\x7d".data)]
    ["w".data, "c4.tpl.md".data] ["w".data, "c4.md".data] ["w".data, "sn".data]
    [] 20 "\x7bvar:zzz\x7d".data "zzz".data
    (by decide) (by decide) (by decide) (by decide)

theorem matchVarAt_cons_ne (c : Char) (rest : Str) (h : ¬ c = '{') :
    matchVarAt (c :: rest) = none := by
  unfold matchVarAt
  rw [if_neg]
  intro heq
  have : (c :: rest).take 5 = c :: rest.take 4 := rfl
  rw [this] at heq
  have : "\x7bvar:".data = '{' :: "var:".data := by decide
  rw [this] at heq
  have hc : c = '{' := (List.cons_eq_cons.mp heq).1
  exact h hc

theorem findVar_none_of_no_lbrace (s : Str) (h : '{' ∉ s) : findVar s = none := by
  induction s with
  | nil => rfl
  | cons c rest ih =>
    have hc : ¬ c = '{' := fun hh => h (by simp [hh])
    have hrest : '{' ∉ rest := fun hh => h (by simp [hh])
    simp [findVar, matchVarAt_cons_ne c rest hc, ih hrest]

theorem mem_takeWhile_pred {α : Type} (p : α → Bool) (l : List α) :
    ∀ x ∈ l.takeWhile p, p x = true := by
  induction l with
  | nil => simp [List.takeWhile]
  | cons a rest ih =>
    intro x hx
    by_cases ha : p a
    · rw [List.takeWhile_cons_of_pos ha] at hx
      rcases List.mem_cons.mp hx with hx | hx
      · subst hx; exact ha
      · exact ih x hx
    · rw [List.takeWhile_cons_of_neg ha] at hx
      simp at hx

theorem takeWhile_append_of_all {α : Type} (p : α → Bool) (l1 l2 : List α)
    (h : ∀ x ∈ l1, p x = true) :
    (l1 ++ l2).takeWhile p = l1 ++ l2.takeWhile p := by
  induction l1 with
  | nil => simp
  | cons a rest ih =>
    have ha : p a = true := h a (by simp)
    simp only [List.cons_append, List.takeWhile_cons_of_pos ha]
    rw [ih (fun x hx => h x (by simp [hx]))]

theorem matchVarAt_bad_name (name : Str)
    (hnb : '}' ∉ name) (hbad : ∃ c ∈ name, isVarChar c = false) :
    matchVarAt ('{' :: 'v' :: 'a' :: 'r' :: ':' :: (name ++ ['}'])) = none := by
  have hd : name.dropWhile isVarChar ≠ [] := by
    intro h0
    have hself : name.takeWhile isVarChar = name := by
      have := List.takeWhile_append_dropWhile isVarChar name
      rw [h0, List.append_nil] at this
      exact this
    obtain ⟨c, hc, hcf⟩ := hbad
    have := (List.takeWhile_eq_self_iff.mp hself) c hc
    rw [hcf] at this
    exact absurd this (by simp)
  obtain ⟨b, q, hbq⟩ : ∃ b q, name.dropWhile isVarChar = b :: q := by
    cases hh : name.dropWhile isVarChar with
    | nil => exact absurd hh hd
    | cons b q => exact ⟨b, q, rfl⟩
  have hbfalse : isVarChar b = false := by
    have := List.head?_dropWhile_not isVarChar name
    rw [hbq] at this
    simpa using this
  have hbmem : b ∈ name := List.dropWhile_subset _ (by rw [hbq]; simp)
  have hbne : ¬ b = '}' := fun hh => hnb (hh ▸ hbmem)
  have hsplit : name = name.takeWhile isVarChar ++ b :: q := by
    conv_lhs => rw [← List.takeWhile_append_dropWhile isVarChar name]
    rw [hbq]
  have hinner : (name ++ ['}']).takeWhile isVarChar = name.takeWhile isVarChar := by
    conv_lhs => rw [hsplit]
    rw [List.append_assoc, List.cons_append,
      takeWhile_append_of_all isVarChar _ _ (mem_takeWhile_pred isVarChar name),
      List.takeWhile_cons_of_neg (by rw [hbfalse]; exact Bool.false_ne_true),
      List.append_nil]
  have hafter : ('{' :: 'v' :: 'a' :: 'r' :: ':' :: (name ++ ['}'])).drop 5 =
      name ++ ['}'] := rfl
  unfold matchVarAt
  rw [if_pos (by rfl)]
  simp only [hafter, hinner]
  by_cases hp : name.takeWhile isVarChar = ([] : Str)
  · rw [if_pos hp]
  · rw [if_neg hp]
    have hlist : name ++ ['}'] = name.takeWhile isVarChar ++ (b :: (q ++ ['}'])) := by
      conv_lhs => rw [hsplit]
      rw [List.append_assoc, List.cons_append]
    have hdrop : (name ++ ['}']).drop (name.takeWhile isVarChar).length =
        b :: (q ++ ['}']) := by
      rw [hlist]
      exact List.drop_left _ _
    rw [hdrop]
    split
    · next heq => exact absurd (List.cons_eq_cons.mp heq).1 hbne
    · rfl

/-- C10: a brace expression `\x7bvar:name\x7d` whose name (brace-free, nonempty)
    contains a character outside `[a-zA-Z0-9_-]` is not matched by `VAR_RE`: the
    variable pass leaves the whole expression verbatim in the output and never
    raises an undefined-variable error for it, whatever the mapping. -/
theorem C10_invalid_var_name_verbatim :
    ∀ (name : Str) (vars : VarDict) (tpl : FsPath),
      name ≠ ([] : Str) → '{' ∉ name → '}' ∉ name →
      (∃ c ∈ name, isVarChar c = false) →
      findVar ('{' :: 'v' :: 'a' :: 'r' :: ':' :: (name ++ ['}'])) = none ∧
      ∀ fuel, subVarsGo vars tpl fuel ('{' :: 'v' :: 'a' :: 'r' :: ':' :: (name ++ ['}'])) =
        .ok ('{' :: 'v' :: 'a' :: 'r' :: ':' :: (name ++ ['}'])) := by
  intro name vars tpl _ hlb hrb hbad
  have hfv : findVar ('{' :: 'v' :: 'a' :: 'r' :: ':' :: (name ++ ['}'])) = none := by
    have hrest : '{' ∉ ('v' :: 'a' :: 'r' :: ':' :: (name ++ ['}'])) := by
      intro hm
      simp only [List.mem_cons, List.mem_append, List.mem_singleton] at hm
      rcases hm with h | h | h | h | h | h <;> first
        | exact absurd h.symm (by decide)
        | exact hlb h
    have h1 : findVar ('v' :: 'a' :: 'r' :: ':' :: (name ++ ['}'])) = none :=
      findVar_none_of_no_lbrace _ hrest
    conv_lhs => rw [findVar]
    rw [matchVarAt_bad_name name hrb hbad, h1]
  refine ⟨hfv, ?_⟩
  intro fuel
  cases fuel with
  | zero => rfl
  | succ fuel => simp [subVarsGo, hfv]

/-- C10 (witness): the name `a b` (contains a space). -/
theorem C10_invalid_var_name_verbatim_witness :
    findVar ('{' :: 'v' :: 'a' :: 'r' :: ':' :: ("a b".data ++ ['}'])) = none ∧
    subVarsGo [("a b".data, "v".data)] ["w".data] 7
      ('{' :: 'v' :: 'a' :: 'r' :: ':' :: ("a b".data ++ ['}'])) =
      .ok ('{' :: 'v' :: 'a' :: 'r' :: ':' :: ("a b".data ++ ['}'])) := by
  have h := C10_invalid_var_name_verbatim "a b".data [("a b".data, "v".data)]
    ["w".data] (by decide) (by decide) (by decide)
    ⟨' ', by decide, by decide⟩
  exact ⟨h.1, h.2 7⟩

theorem search_media_some (st : MediaStore) (stem ext e : Str)
    (h : search_media_by_name st stem ext = some e) :
    ∃ r ∈ st, r.mid = e ∧ r.fileName = some stem ∧ r.fileExt = some (lowerStr ext) := by
  induction st with
  | nil => simp [search_media_by_name] at h
  | cons r rest ih =>
    by_cases hr : r.fileName = some stem ∧ r.fileExt = some (lowerStr ext)
    · rw [search_media_by_name, if_pos hr] at h
      exact ⟨r, by simp, by simpa using h, hr.1, hr.2⟩
    · rw [search_media_by_name, if_neg hr] at h
      obtain ⟨r', hmem, hrest⟩ := ih h
      exact ⟨r', by simp [hmem], hrest⟩

theorem updMedia_mid (e stem ext content : Str) (r : MediaRecord) :
    (updMedia e stem ext content r).mid = r.mid := by
  unfold updMedia
  by_cases h : r.mid = e <;> simp [h]

theorem map_updMedia_ids (st : MediaStore) (e stem ext content : Str) :
    (st.map (updMedia e stem ext content)).map (fun r => r.mid) =
      st.map (fun r => r.mid) := by
  induction st with
  | nil => rfl
  | cons r rest ih => simp [ih, updMedia_mid]

theorem mediaContentById_map_upd (st : MediaStore) (e stem ext content : Str)
    (hex : ∃ r ∈ st, r.mid = e) :
    mediaContentById (st.map (updMedia e stem ext content)) e = some (some content) := by
  induction st with
  | nil => simp at hex
  | cons r0 rest ih =>
    by_cases h0 : r0.mid = e
    · simp only [List.map_cons, mediaContentById, updMedia, if_pos h0]
    · simp only [List.map_cons, mediaContentById, updMedia, if_neg h0]
      refine ih ?_
      obtain ⟨r, hmem, hmid⟩ := hex
      rcases List.mem_cons.mp hmem with hr | hr
      · subst hr; exact absurd hmid h0
      · exact ⟨r, hr, hmid⟩

theorem uploadEndpoint_ok (st : MediaStore) (mid stem ext content : Str)
    (hdup : (st.any (fun r =>
      !(r.mid = mid) && r.fileName = some stem && r.fileExt = some ext)) = false)
    (hex : (st.any (fun r => r.mid = mid)) = true) :
    uploadEndpoint st mid stem ext content = .ok (st.map (updMedia mid stem ext content)) := by
  unfold uploadEndpoint
  rw [if_neg (by rw [hdup]; exact Bool.false_ne_true)]
  rw [if_pos hex]
  rfl

/-- C8: media upload de-duplication.  Writing `stem` for the synthetic name
    `repo_name ++ "__" ++ file_stem` and `ext` for the derived extension:
    (i) when the remote search finds an existing record carrying that name (a
    name unique on the server), `upload_media` returns that existing record's
    id, replaces its binary content through the upload endpoint, and creates no
    new record (the list of record ids is unchanged); (ii) a record with a
    fresh id is created only when the search finds no match, and then exactly
    one new id appears, holding the uploaded content. -/
theorem C8_upload_dedup :
    ∀ (st : MediaStore) (freshId repoName baseStem sfx content : Str),
      content ≠ ([] : Str) →
      ((∀ e, search_media_by_name st (synthStem repoName baseStem) (extOf sfx) = some e →
        (∀ r ∈ st, r.fileName = some (synthStem repoName baseStem) →
          r.fileExt = some (extOf sfx) → r.mid = e) →
        ∃ st2, upload_media st freshId repoName baseStem sfx content = .ok (e, st2) ∧
          st2.map (fun r => r.mid) = st.map (fun r => r.mid) ∧
          mediaContentById st2 e = some (some content)) ∧
      (search_media_by_name st (synthStem repoName baseStem) (extOf sfx) = none →
        freshId ∉ st.map (fun r => r.mid) →
        (∀ r ∈ st, ¬(r.fileName = some (synthStem repoName baseStem) ∧
          r.fileExt = some (extOf sfx))) →
        ∃ st2, upload_media st freshId repoName baseStem sfx content = .ok (freshId, st2) ∧
          st2.map (fun r => r.mid) = st.map (fun r => r.mid) ++ [freshId] ∧
          mediaContentById st2 freshId = some (some content))) := by
  intro st freshId rn bs sfx content hne
  constructor
  · intro e hsearch huniq
    have hdup : (st.any (fun r =>
        !(r.mid = e) && r.fileName = some (synthStem rn bs) &&
          r.fileExt = some (extOf sfx))) = false := by
      rw [List.any_eq_false]
      intro r hr
      by_cases h1 : r.fileName = some (synthStem rn bs)
      · by_cases h2 : r.fileExt = some (extOf sfx)
        · have := huniq r hr h1 h2
          simp [this, h1, h2]
        · simp [h1, h2]
      · simp [h1]
    have hexr := search_media_some st (synthStem rn bs) (extOf sfx) e hsearch
    have hex : st.any (fun r => r.mid = e) = true := by
      obtain ⟨r, hr, hmid, _, _⟩ := hexr
      rw [List.any_eq_true]
      exact ⟨r, hr, by simp [hmid]⟩
    have hex' : ∃ r ∈ st, r.mid = e := by
      obtain ⟨r, hr, hmid, _, _⟩ := hexr
      exact ⟨r, hr, hmid⟩
    have hup := uploadEndpoint_ok st e (synthStem rn bs) (extOf sfx) content hdup hex
    refine ⟨st.map (updMedia e (synthStem rn bs) (extOf sfx) content), ?_,
      map_updMedia_ids st e (synthStem rn bs) (extOf sfx) content,
      mediaContentById_map_upd st e (synthStem rn bs) (extOf sfx) content hex'⟩
    simp only [upload_media, if_neg hne, hsearch, hup]
  · intro hsearch hfresh hB
    have hdup : ((createMedia st freshId).any (fun r =>
        !(r.mid = freshId) && r.fileName = some (synthStem rn bs) &&
          r.fileExt = some (extOf sfx))) = false := by
      rw [List.any_eq_false]
      intro r hr
      rcases List.mem_append.mp hr with hr | hr
      · by_cases h1 : r.fileName = some (synthStem rn bs)
        · have h2 : ¬ r.fileExt = some (extOf sfx) := fun hh => hB r hr ⟨h1, hh⟩
          simp [h1, h2]
        · simp [h1]
      · simp only [List.mem_singleton] at hr
        subst hr
        simp
    have hex : (createMedia st freshId).any (fun r => r.mid = freshId) = true := by
      rw [List.any_eq_true]
      refine ⟨{ mid := freshId, fileName := none, fileExt := none, content := none },
        ?_, by simp⟩
      unfold createMedia
      simp
    have hex' : ∃ r ∈ createMedia st freshId, r.mid = freshId := by
      refine ⟨{ mid := freshId, fileName := none, fileExt := none, content := none },
        ?_, rfl⟩
      unfold createMedia
      simp
    have hup := uploadEndpoint_ok (createMedia st freshId) freshId (synthStem rn bs)
      (extOf sfx) content hdup hex
    refine ⟨(createMedia st freshId).map
        (updMedia freshId (synthStem rn bs) (extOf sfx) content), ?_, ?_,
      mediaContentById_map_upd (createMedia st freshId) freshId (synthStem rn bs)
        (extOf sfx) content hex'⟩
    · simp only [upload_media, if_neg hne, hsearch, hup]
    · rw [map_updMedia_ids]
      unfold createMedia
      simp

/-- C8 (witness): a store holding one record named `repo__logo.png` is reused
    for an upload of `logo.png` from repository `repo`; an empty store gets a
    fresh record. -/
theorem C8_upload_dedup_witness :
    (∃ st2, upload_media
        [{ mid := "m1".data, fileName := some (synthStem "repo".data "logo".data),
           fileExt := some "png".data, content := some "old".data }]
        "f1".data "repo".data "logo".data ".png".data "new".data = .ok ("m1".data, st2) ∧
      st2.map (fun r => r.mid) =
        ([{ mid := "m1".data, fileName := some (synthStem "repo".data "logo".data),
            fileExt := some "png".data, content := some "old".data }] :
          MediaStore).map (fun r => r.mid) ∧
      mediaContentById st2 "m1".data = some (some "new".data)) ∧
    (∃ st2, upload_media [] "f1".data "repo".data "logo".data ".png".data "new".data =
        .ok ("f1".data, st2) ∧
      st2.map (fun r => r.mid) = ([] : MediaStore).map (fun r => r.mid) ++ ["f1".data] ∧
      mediaContentById st2 "f1".data = some (some "new".data)) :=
  ⟨(C8_upload_dedup
      [{ mid := "m1".data, fileName := some (synthStem "repo".data "logo".data),
         fileExt := some "png".data, content := some "old".data }]
      "f1".data "repo".data "logo".data ".png".data "new".data (by decide)).1
    "m1".data (by decide) (by decide),
   (C8_upload_dedup [] "f1".data "repo".data "logo".data ".png".data "new".data
      (by decide)).2 (by decide) (by decide) (by decide)⟩

theorem renderGo_succ_ok_inv (fuel : Nat) (fs : Fs) (tpl out snip : FsPath)
    (vars : VarDict) (seen : List FsPath) (depth maxD : Nat) (r : Fs × List FsPath)
    (h : renderGo (fuel + 1) fs tpl out snip vars seen depth maxD = .ok r) :
    ∃ src rendered fs1 seen1 finalText,
      fsRead fs (canonPath tpl) = some src ∧
      subIncludesGo (fun fs2 tpl2 out2 seen2 =>
          renderGo fuel fs2 tpl2 out2 snip vars seen2 (depth + 1) maxD)
        tpl snip (src.length + 1) fs (canonPath tpl :: seen) src =
        .ok (rendered, fs1, seen1) ∧
      subVarsGo vars tpl (rendered.length + 1) rendered = .ok finalText ∧
      r = (fsWrite fs1 (canonPath out) finalText, seen1) := by
  rw [renderGo] at h
  by_cases h1 : maxD < depth
  · rw [if_pos h1] at h; exact absurd h (by simp)
  rw [if_neg h1] at h
  by_cases h2 : canonPath tpl ∈ seen
  · rw [if_pos h2] at h; exact absurd h (by simp)
  rw [if_neg h2] at h
  cases hsrc : fsRead fs (canonPath tpl) with
  | none => rw [hsrc] at h; exact absurd h (by simp)
  | some src =>
    rw [hsrc] at h
    dsimp only at h
    cases hsub : subIncludesGo (fun fs2 tpl2 out2 seen2 =>
        renderGo fuel fs2 tpl2 out2 snip vars seen2 (depth + 1) maxD)
        tpl snip (src.length + 1) fs (canonPath tpl :: seen) src with
    | error e => rw [hsub] at h; exact absurd h (by simp)
    | ok t =>
      obtain ⟨rendered, fs1, seen1⟩ := t
      rw [hsub] at h
      dsimp only at h
      cases hv : subVarsGo vars tpl (rendered.length + 1) rendered with
      | error e => rw [hv] at h; exact absurd h (by simp)
      | ok finalText =>
        rw [hv] at h
        dsimp only at h
        simp only [Except.ok.injEq] at h
        exact ⟨src, rendered, fs1, seen1, finalText, rfl, hsub, hv, h.symm⟩

theorem includeOne_growth
    (render : Fs → FsPath → FsPath → List FsPath → Except RenderError (Fs × List FsPath))
    (Hgrow : ∀ fs t o s fs1 s1, render fs t o s = .ok (fs1, s1) →
      ∀ p, (fsRead fs p).isSome = true → (fsRead fs1 p).isSome = true)
    (fs : Fs) (seen : List FsPath) (tpl snip : FsPath) (inner content : Str)
    (fs1 : Fs) (seen1 : List FsPath)
    (h : includeOne render fs seen tpl snip inner = .ok (content, fs1, seen1)) :
    ∀ p, (fsRead fs p).isSome = true → (fsRead fs1 p).isSome = true := by
  unfold includeOne at h
  by_cases htpl : hasTplSegment (fileNameOf (resolve_include_path tpl (trimStr inner) snip)) = true
  · rw [if_pos htpl] at h
    dsimp only at h
    cases hr : render fs (resolve_include_path tpl (trimStr inner) snip)
        (tplOutPath (resolve_include_path tpl (trimStr inner) snip)) seen with
    | error e => rw [hr] at h; exact absurd h (by simp)
    | ok t =>
      obtain ⟨fs2, seen2⟩ := t
      rw [hr] at h
      dsimp only at h
      cases hread : fsRead fs2 (canonPath (tplOutPath
          (resolve_include_path tpl (trimStr inner) snip))) with
      | none => rw [hread] at h; exact absurd h (by simp)
      | some c =>
        rw [hread] at h
        simp only [Except.ok.injEq, Prod.mk.injEq] at h
        intro p hp
        rw [← h.2.1]
        exact Hgrow fs _ _ seen fs2 seen2 hr p hp
  · rw [if_neg htpl] at h
    cases hread : fsRead fs (canonPath (resolve_include_path tpl (trimStr inner) snip)) with
    | none => rw [hread] at h; exact absurd h (by simp)
    | some c =>
      rw [hread] at h
      simp only [Except.ok.injEq, Prod.mk.injEq] at h
      intro p hp
      rw [← h.2.1]
      exact hp

theorem subIncludesGo_growth
    (render : Fs → FsPath → FsPath → List FsPath → Except RenderError (Fs × List FsPath))
    (tpl snip : FsPath)
    (Hgrow : ∀ fs t o s fs1 s1, render fs t o s = .ok (fs1, s1) →
      ∀ p, (fsRead fs p).isSome = true → (fsRead fs1 p).isSome = true) :
    ∀ (fuel : Nat) (text : Str) (fs : Fs) (seen : List FsPath) (res : Str)
      (fs2 : Fs) (seen2 : List FsPath),
      subIncludesGo render tpl snip fuel fs seen text = .ok (res, fs2, seen2) →
      ∀ p, (fsRead fs p).isSome = true → (fsRead fs2 p).isSome = true := by
  intro fuel
  induction fuel with
  | zero =>
    intro text fs seen res fs2 seen2 h p hp
    simp only [subIncludesGo, Except.ok.injEq, Prod.mk.injEq] at h
    rw [← h.2.1]
    exact hp
  | succ fuel ih =>
    intro text fs seen res fs2 seen2 h p hp
    rw [subIncludesGo] at h
    cases hf : findInclude text with
    | none =>
      rw [hf] at h
      simp only [Except.ok.injEq, Prod.mk.injEq] at h
      rw [← h.2.1]
      exact hp
    | some t =>
      obtain ⟨pre, inner, after⟩ := t
      rw [hf] at h
      dsimp only at h
      cases hio : includeOne render fs seen tpl snip inner with
      | error e => rw [hio] at h; exact absurd h (by simp)
      | ok t1 =>
        obtain ⟨content, fs1, seen1⟩ := t1
        rw [hio] at h
        dsimp only at h
        cases hrec : subIncludesGo render tpl snip fuel fs1 seen1 after with
        | error e => rw [hrec] at h; exact absurd h (by simp)
        | ok t2 =>
          obtain ⟨tailText, fs3, seen3⟩ := t2
          rw [hrec] at h
          simp only [Except.ok.injEq, Prod.mk.injEq] at h
          rw [← h.2.1]
          exact ih after fs1 seen1 tailText fs3 seen3 hrec p
            (includeOne_growth render Hgrow fs seen tpl snip inner content fs1 seen1 hio p hp)

theorem renderGo_growth :
    ∀ (fuel : Nat) (fs : Fs) (tpl out snip : FsPath) (vars : VarDict)
      (seen : List FsPath) (depth maxD : Nat) (fs' : Fs) (seen' : List FsPath),
      renderGo fuel fs tpl out snip vars seen depth maxD = .ok (fs', seen') →
      ∀ p, (fsRead fs p).isSome = true → (fsRead fs' p).isSome = true := by
  intro fuel
  induction fuel with
  | zero =>
    intro fs tpl out snip vars seen depth maxD fs' seen' h
    rw [renderGo] at h
    split_ifs at h
  | succ fuel ih =>
    intro fs tpl out snip vars seen depth maxD fs' seen' h p hp
    obtain ⟨src, rendered, fs1, seen1, finalText, hsrc, hsub, hv, hr⟩ :=
      renderGo_succ_ok_inv fuel fs tpl out snip vars seen depth maxD _ h
    have h1 := subIncludesGo_growth _ tpl snip
      (fun fs0 t0 o0 s0 fs10 s10 hok => ih fs0 t0 o0 snip vars s0 (depth + 1) maxD fs10 s10 hok)
      (src.length + 1) src fs (canonPath tpl :: seen) rendered fs1 seen1 hsub p hp
    rw [show fs' = fsWrite fs1 (canonPath out) finalText from congrArg Prod.fst hr]
    exact fsRead_fsWrite_isSome fs1 (canonPath out) p finalText h1

theorem renderGo_self_write :
    ∀ (fuel : Nat) (fs : Fs) (tpl out snip : FsPath) (vars : VarDict)
      (seen : List FsPath) (depth maxD : Nat) (fs' : Fs) (seen' : List FsPath),
      renderGo fuel fs tpl out snip vars seen depth maxD = .ok (fs', seen') →
      (fsRead fs' (canonPath out)).isSome = true := by
  intro fuel
  cases fuel with
  | zero =>
    intro fs tpl out snip vars seen depth maxD fs' seen' h
    rw [renderGo] at h
    split_ifs at h
  | succ fuel =>
    intro fs tpl out snip vars seen depth maxD fs' seen' h
    obtain ⟨src, rendered, fs1, seen1, finalText, hsrc, hsub, hv, hr⟩ :=
      renderGo_succ_ok_inv fuel fs tpl out snip vars seen depth maxD _ h
    rw [show fs' = fsWrite fs1 (canonPath out) finalText from congrArg Prod.fst hr]
    rw [fsRead_fsWrite_self]
    rfl

theorem subIncludesGo_marker_written
    (render : Fs → FsPath → FsPath → List FsPath → Except RenderError (Fs × List FsPath))
    (tpl snip : FsPath)
    (Hgrow : ∀ fs t o s fs1 s1, render fs t o s = .ok (fs1, s1) →
      ∀ p, (fsRead fs p).isSome = true → (fsRead fs1 p).isSome = true)
    (Hself : ∀ fs t o s fs1 s1, render fs t o s = .ok (fs1, s1) →
      (fsRead fs1 (canonPath o)).isSome = true) :
    ∀ (fuel : Nat) (text : Str) (fs : Fs) (seen : List FsPath) (res : Str)
      (fs2 : Fs) (seen2 : List FsPath) (rel : Str),
      rel ∈ includeMarkersGo fuel text →
      hasTplSegment (fileNameOf (resolve_include_path tpl (trimStr rel) snip)) = true →
      subIncludesGo render tpl snip fuel fs seen text = .ok (res, fs2, seen2) →
      (fsRead fs2 (canonPath (tplOutPath
        (resolve_include_path tpl (trimStr rel) snip)))).isSome = true := by
  intro fuel
  induction fuel with
  | zero =>
    intro text fs seen res fs2 seen2 rel hmem htpl h
    simp [includeMarkersGo] at hmem
  | succ fuel ih =>
    intro text fs seen res fs2 seen2 rel hmem htpl h
    rw [subIncludesGo] at h
    cases hf : findInclude text with
    | none =>
      rw [show includeMarkersGo (fuel + 1) text = [] by simp [includeMarkersGo, hf]] at hmem
      simp at hmem
    | some t =>
      obtain ⟨pre, inner, after⟩ := t
      rw [hf] at h
      dsimp only at h
      rw [show includeMarkersGo (fuel + 1) text = inner :: includeMarkersGo fuel after by
        simp [includeMarkersGo, hf]] at hmem
      cases hio : includeOne render fs seen tpl snip inner with
      | error e => rw [hio] at h; exact absurd h (by simp)
      | ok t1 =>
        obtain ⟨content, fs1, seen1⟩ := t1
        rw [hio] at h
        dsimp only at h
        cases hrec : subIncludesGo render tpl snip fuel fs1 seen1 after with
        | error e => rw [hrec] at h; exact absurd h (by simp)
        | ok t2 =>
          obtain ⟨tailText, fs3, seen3⟩ := t2
          rw [hrec] at h
          simp only [Except.ok.injEq, Prod.mk.injEq] at h
          rcases List.mem_cons.mp hmem with hrel | hrel
          · subst hrel
            have hsome1 : (fsRead fs1 (canonPath (tplOutPath
                (resolve_include_path tpl (trimStr rel) snip)))).isSome = true := by
              unfold includeOne at hio
              rw [if_pos htpl] at hio
              dsimp only at hio
              cases hr : render fs (resolve_include_path tpl (trimStr rel) snip)
                  (tplOutPath (resolve_include_path tpl (trimStr rel) snip)) seen with
              | error e => rw [hr] at hio; exact absurd hio (by simp)
              | ok t3 =>
                obtain ⟨fs4, seen4⟩ := t3
                rw [hr] at hio
                dsimp only at hio
                cases hread : fsRead fs4 (canonPath (tplOutPath
                    (resolve_include_path tpl (trimStr rel) snip))) with
                | none => rw [hread] at hio; exact absurd hio (by simp)
                | some c =>
                  rw [hread] at hio
                  simp only [Except.ok.injEq, Prod.mk.injEq] at hio
                  rw [← hio.2.1]
                  exact Hself fs _ _ seen fs4 seen4 hr
            rw [← h.2.1]
            exact subIncludesGo_growth render tpl snip Hgrow fuel after fs1 seen1
              tailText fs3 seen3 hrec _ hsome1
          · rw [← h.2.1]
            exact ih after fs1 seen1 tailText fs3 seen3 rel hrel htpl hrec

/-- C9 (implicit frame effect): when a document's include marker resolves to a
    further-renderable template (name containing `.tpl.`), a successful render
    of the parent also leaves that included template's own rendered output on
    disk at its derived output path (the `.tpl.` segment stripped) — a render
    can create output files other than its own single output file. -/
theorem C9_nested_output_written :
    ∀ (fs : Fs) (tpl out snip : FsPath) (vars : VarDict) (maxD : Nat)
      (fs' : Fs) (seen' : List FsPath) (src rel : Str),
      fsRead fs (canonPath tpl) = some src →
      rel ∈ includeMarkersOf src →
      hasTplSegment (fileNameOf (resolve_include_path tpl (trimStr rel) snip)) = true →
      render_template fs tpl out snip vars maxD = .ok (fs', seen') →
      (fsRead fs' (canonPath (tplOutPath
        (resolve_include_path tpl (trimStr rel) snip)))).isSome = true := by
  intro fs tpl out snip vars maxD fs' seen' src rel hsrc hmem htpl h
  unfold render_template at h
  obtain ⟨src0, rendered, fs1, seen1, finalText, hsrc0, hsub, hv, hr⟩ :=
    renderGo_succ_ok_inv maxD fs tpl out snip vars [] 0 maxD _ h
  have hsrceq : src0 = src := by
    rw [hsrc] at hsrc0
    exact (Option.some.injEq _ _ ▸ hsrc0).symm
  subst hsrceq
  have hsome1 := subIncludesGo_marker_written
    (fun fs2 tpl2 out2 seen2 => renderGo maxD fs2 tpl2 out2 snip vars seen2 1 maxD)
    tpl snip
    (fun fs0 t0 o0 s0 fs10 s10 hok =>
      renderGo_growth maxD fs0 t0 o0 snip vars s0 1 maxD fs10 s10 hok)
    (fun fs0 t0 o0 s0 fs10 s10 hok =>
      renderGo_self_write maxD fs0 t0 o0 snip vars s0 1 maxD fs10 s10 hok)
    (src0.length + 1) src0 fs (canonPath tpl :: []) rendered fs1 seen1 rel hmem htpl hsub
  rw [show fs' = fsWrite fs1 (canonPath out) finalText from congrArg Prod.fst hr]
  exact fsRead_fsWrite_isSome fs1 (canonPath out) _ finalText hsome1

/-- C9 (witness): rendering `p.tpl.md` also writes `c.md`, the derived output of
    the included template `c.tpl.md`. -/
theorem C9_nested_output_written_witness :
    (fsRead
      [(exTplC9, "\x7bfile:c.tpl.md\x7d".data), (exIncC9, "y".data),
       (["repo".data, "c.md".data], "y".data), (["repo".data, "p.md".data], "y".data)]
      (canonPath (tplOutPath
        (resolve_include_path exTplC9 (trimStr "c.tpl.md".data)
          ["repo".data, "sn".data])))).isSome = true :=
  C9_nested_output_written exFsC9 exTplC9 (tplOutPath exTplC9) ["repo".data, "sn".data]
    [] 20
    [(exTplC9, "\x7bfile:c.tpl.md\x7d".data), (exIncC9, "y".data),
     (["repo".data, "c.md".data], "y".data), (["repo".data, "p.md".data], "y".data)]
    [exIncC9, exTplC9]
    "\x7bfile:c.tpl.md\x7d".data "c.tpl.md".data
    (by decide) (by decide) (by decide) rfl

/- ------------------------- C3 chain lemmas -------------------------------- -/

theorem cname_length (i : Nat) : (cname i).length = i + 8 := by
  simp [cname, List.length_append, List.length_replicate,
    show (".tpl.md".data).length = 7 from rfl]

theorem cname_inj (i j : Nat) (h : cname i = cname j) : i = j := by
  have := congrArg List.length h
  rw [cname_length, cname_length] at this
  omega

theorem chainTplPath_inj (i j : Nat) (h : chainTplPath i = chainTplPath j) : i = j := by
  unfold chainTplPath at h
  have h2 := (List.cons_eq_cons.mp h).2
  exact cname_inj i j (List.cons_eq_cons.mp h2).1

theorem no_rbrace_cname (i : Nat) : '}' ∉ cname i := by
  intro h
  simp only [cname, List.mem_cons, List.mem_append, List.mem_replicate] at h
  rcases h with h | ⟨_, h⟩ | h
  · exact absurd h (by decide)
  · exact absurd h (by decide)
  · exact absurd h (by decide)

theorem cname_ne_nil (i : Nat) : cname i ≠ ([] : Str) := by
  intro h
  have := congrArg List.length h
  rw [cname_length] at this
  simp at this

theorem cname_ne_dot (i : Nat) : cname i ≠ ".".data := by
  intro h
  have := congrArg List.length h
  rw [cname_length, show ((".".data).length) = 1 from rfl] at this
  omega

theorem cname_ne_dotdot (i : Nat) : cname i ≠ "..".data := by
  intro h
  have := congrArg List.length h
  rw [cname_length, show (("..".data).length) = 2 from rfl] at this
  omega

theorem coutName_ne_nil (i : Nat) : coutName i ≠ ([] : Str) := by
  intro h
  exact List.cons_ne_nil _ _ h

theorem coutName_ne_dot (i : Nat) : coutName i ≠ ".".data := by
  unfold coutName
  intro h
  have h2 := (List.cons_eq_cons.mp h).1
  exact absurd h2 (by decide)

theorem coutName_ne_dotdot (i : Nat) : coutName i ≠ "..".data := by
  unfold coutName
  intro h
  have h2 := (List.cons_eq_cons.mp h).1
  exact absurd h2 (by decide)

theorem coutName_ne_cname (i j : Nat) : coutName i ≠ cname j := by
  unfold coutName cname
  intro h
  have h2 := (List.cons_eq_cons.mp h).2
  clear h
  induction i generalizing j with
  | zero =>
    cases j with
    | zero => exact absurd h2 (by decide)
    | succ j =>
      simp only [List.replicate, List.nil_append, List.cons_append] at h2
      exact absurd (List.cons_eq_cons.mp h2).1 (by decide)
  | succ i ih =>
    cases j with
    | zero =>
      simp only [List.replicate, List.nil_append, List.cons_append] at h2
      exact absurd (List.cons_eq_cons.mp h2).1 (by decide)
    | succ j =>
      simp only [List.replicate, List.cons_append] at h2
      exact ih j (by simpa using (List.cons_eq_cons.mp h2).2)

theorem chainOutPath_ne_chainTplPath (i j : Nat) : chainOutPath i ≠ chainTplPath j := by
  unfold chainOutPath chainTplPath
  intro h
  have h2 := (List.cons_eq_cons.mp h).2
  exact coutName_ne_cname i j (List.cons_eq_cons.mp h2).1

theorem hasTpl_xs (i : Nat) :
    hasTplSegment (List.replicate i 'x' ++ ".tpl.md".data) = true := by
  induction i with
  | zero => decide
  | succ i ih =>
    simp only [List.replicate, List.cons_append]
    rw [show hasTplSegment ('x' :: (List.replicate i 'x' ++ ".tpl.md".data)) =
      hasTplSegment (List.replicate i 'x' ++ ".tpl.md".data) from rfl]
    exact ih

theorem hasTpl_cname (i : Nat) : hasTplSegment (cname i) = true := by
  unfold cname
  rw [show hasTplSegment ('c' :: (List.replicate i 'x' ++ ".tpl.md".data)) =
    hasTplSegment (List.replicate i 'x' ++ ".tpl.md".data) from rfl]
  exact hasTpl_xs i

theorem replaceTplDot_xs (i : Nat) :
    replaceTplDot (List.replicate i 'x' ++ ".tpl.md".data) =
      List.replicate i 'x' ++ ".md".data := by
  induction i with
  | zero => decide
  | succ i ih =>
    simp only [List.replicate, List.cons_append]
    rw [show replaceTplDot ('x' :: (List.replicate i 'x' ++ ".tpl.md".data)) =
      'x' :: replaceTplDot (List.replicate i 'x' ++ ".tpl.md".data) from rfl]
    rw [ih]

theorem replaceTplDot_cname (i : Nat) : replaceTplDot (cname i) = coutName i := by
  unfold cname coutName
  rw [show replaceTplDot ('c' :: (List.replicate i 'x' ++ ".tpl.md".data)) =
    'c' :: replaceTplDot (List.replicate i 'x' ++ ".tpl.md".data) from rfl]
  rw [replaceTplDot_xs]

theorem dropWhile_all_false {α : Type} (p : α → Bool) (l : List α)
    (h : ∀ c ∈ l, p c = false) : l.dropWhile p = l := by
  cases l with
  | nil => rfl
  | cons a rest => rw [List.dropWhile_cons_of_neg (by rw [h a (by simp)]; simp)]

theorem trimStr_of_no_space (s : Str) (h : ∀ c ∈ s, isPySpace c = false) :
    trimStr s = s := by
  unfold trimStr
  rw [dropWhile_all_false isPySpace s h,
    dropWhile_all_false isPySpace s.reverse (fun c hc => h c (List.mem_reverse.mp hc)),
    List.reverse_reverse]

theorem no_space_cname (i : Nat) : ∀ c ∈ cname i, isPySpace c = false := by
  intro c hc
  simp only [cname, List.mem_cons, List.mem_append, List.mem_replicate] at hc
  rcases hc with hc | ⟨_, hc⟩ | hc
  · subst hc; decide
  · subst hc; decide
  · simp only [show ".tpl.md".data = ['.', 't', 'p', 'l', '.', 'm', 'd'] from rfl,
      List.mem_cons, List.not_mem_nil, or_false] at hc
    rcases hc with hc | hc | hc | hc | hc | hc | hc <;> (subst hc; decide)

theorem trimStr_cname (i : Nat) : trimStr (cname i) = cname i :=
  trimStr_of_no_space (cname i) (no_space_cname i)

theorem isNormalComp_of_ne (c : Str) (h1 : c ≠ ([] : Str)) (h2 : c ≠ ".".data)
    (h3 : c ≠ "..".data) : isNormalComp c = true := by
  simp [isNormalComp, h1, h2, h3]

theorem canonPath_chainTpl (i : Nat) : canonPath (chainTplPath i) = chainTplPath i := by
  apply canonPath_of_normal
  unfold chainTplPath isNormalPath
  rw [List.all_cons, List.all_cons]
  rw [isNormalComp_of_ne _ (cname_ne_nil i) (cname_ne_dot i) (cname_ne_dotdot i)]
  decide

theorem canonPath_chainOut (i : Nat) : canonPath (chainOutPath i) = chainOutPath i := by
  apply canonPath_of_normal
  unfold chainOutPath isNormalPath
  rw [List.all_cons, List.all_cons]
  rw [isNormalComp_of_ne _ (coutName_ne_nil i) (coutName_ne_dot i) (coutName_ne_dotdot i)]
  decide

theorem splitOnSlash_no_slash (s : Str) (h : '/' ∉ s) : splitOnSlash s = [s] := by
  induction s with
  | nil => rfl
  | cons c rest ih =>
    have hc : ¬ c = '/' := fun hh => h (by simp [hh])
    rw [splitOnSlash, if_neg hc, ih (fun hh => h (by simp [hh]))]

theorem splitComponents_no_slash (s : Str) (h : '/' ∉ s) (hne : s ≠ ([] : Str)) :
    splitComponents s = [s] := by
  unfold splitComponents
  rw [splitOnSlash_no_slash s h]
  simp [hne]

theorem no_slash_cname (i : Nat) : '/' ∉ cname i := by
  intro h
  simp only [cname, List.mem_cons, List.mem_append, List.mem_replicate] at h
  rcases h with h | ⟨_, h⟩ | h
  · exact absurd h (by decide)
  · exact absurd h (by decide)
  · exact absurd h (by decide)

theorem take9_cname (i : Nat) : ¬ (cname i).take 9 = "snippets/".data := by
  unfold cname
  intro h
  rw [show ('c' :: (List.replicate i 'x' ++ ".tpl.md".data)).take 9 =
    'c' :: (List.replicate i 'x' ++ ".tpl.md".data).take 8 from rfl] at h
  exact absurd (List.cons_eq_cons.mp h).1 (by decide)

theorem chain_resolve (i : Nat) :
    resolve_include_path (chainTplPath i) (trimStr (cname (i + 1))) chainSnip =
      chainTplPath (i + 1) := by
  rw [trimStr_cname]
  unfold resolve_include_path
  rw [trimStr_cname]
  rw [if_neg (take9_cname (i + 1))]
  have hjoin : joinRel (chainTplPath i).dropLast (cname (i + 1)) =
      ["repo".data, cname (i + 1)] := by
    have hd : (chainTplPath i).dropLast = ["repo".data] := rfl
    rw [hd]
    have : joinRel ["repo".data] (cname (i + 1)) =
        ["repo".data] ++ splitComponents (cname (i + 1)) := by
      unfold cname joinRel
      rfl
    rw [this, splitComponents_no_slash _ (no_slash_cname (i + 1)) (cname_ne_nil (i + 1))]
    rfl
  rw [hjoin]
  exact canonPath_chainTpl (i + 1)

theorem fileNameOf_chainTpl (i : Nat) : fileNameOf (chainTplPath i) = cname i := rfl

theorem tplOutPath_chainTpl (i : Nat) : tplOutPath (chainTplPath i) = chainOutPath i := by
  unfold tplOutPath withFileName
  rw [fileNameOf_chainTpl, replaceTplDot_cname]
  rfl

theorem fsRead_append (l1 l2 : Fs) (p : FsPath) :
    fsRead (l1 ++ l2) p =
      (match fsRead l1 p with
       | some v => some v
       | none => fsRead l2 p) := by
  induction l1 with
  | nil => simp [fsRead]
  | cons e rest ih =>
    by_cases he : e.1 = p
    · simp [fsRead, he]
    · simp [fsRead, he, ih]

theorem fsRead_eq_none (l : Fs) (p : FsPath) (h : ∀ e ∈ l, e.1 ≠ p) :
    fsRead l p = none := by
  induction l with
  | nil => rfl
  | cons e rest ih =>
    rw [fsRead, if_neg (h e (by simp))]
    exact ih (fun x hx => h x (by simp [hx]))

theorem fsRead_map_range (f : Nat → FsPath) (g : Nat → Str)
    (hinj : ∀ a b, f a = f b → a = b) :
    ∀ (n j : Nat), j < n →
      fsRead ((List.range n).map (fun i => (f i, g i))) (f j) = some (g j) := by
  intro n
  induction n with
  | zero => intro j hj; omega
  | succ n ih =>
    intro j hj
    rw [List.range_succ, List.map_append, fsRead_append]
    by_cases hjn : j < n
    · rw [ih j hjn]
    · have hj' : j = n := by omega
      subst hj'
      rw [fsRead_eq_none ((List.range j).map (fun i => (f i, g i))) (f j) ?_]
      · simp [fsRead]
      · intro e he
        rw [List.mem_map] at he
        obtain ⟨a, ha, hae⟩ := he
        rw [← hae]
        intro hfa
        have := hinj a j hfa
        rw [List.mem_range] at ha
        omega

theorem chainFs_read (N j : Nat) (h : j ≤ N) :
    fsRead (chainFs N) (chainTplPath j) = some (chainDoc N j) := by
  unfold chainFs
  exact fsRead_map_range chainTplPath (chainDoc N) chainTplPath_inj (N + 1) j (by omega)

theorem matchIncludeAt_marker (inner rest : Str) (hne : inner ≠ ([] : Str))
    (hnb : '}' ∉ inner) :
    matchIncludeAt ('{' :: 'f' :: 'i' :: 'l' :: 'e' :: ':' :: (inner ++ '}' :: rest)) =
      some (inner, rest) := by
  have hall : ∀ c ∈ inner, (fun c => !(c = '}')) c = true := by
    intro c hc
    have : ¬ c = '}' := fun hh => hnb (hh ▸ hc)
    simp [this]
  have htw : (inner ++ '}' :: rest).takeWhile (fun c => !(c = '}')) = inner := by
    rw [takeWhile_append_of_all _ inner ('}' :: rest) hall,
      List.takeWhile_cons_of_neg (by simp), List.append_nil]
  have hdrop : (inner ++ '}' :: rest).drop inner.length = '}' :: rest :=
    List.drop_left inner ('}' :: rest)
  unfold matchIncludeAt
  rw [if_pos (by rfl)]
  dsimp only
  rw [show ('{' :: 'f' :: 'i' :: 'l' :: 'e' :: ':' :: (inner ++ '}' :: rest)).drop 6 =
    inner ++ '}' :: rest from rfl]
  rw [htw, if_neg hne, hdrop]
  rfl

theorem findInclude_marker (inner rest : Str) (hne : inner ≠ ([] : Str))
    (hnb : '}' ∉ inner) :
    findInclude ('{' :: 'f' :: 'i' :: 'l' :: 'e' :: ':' :: (inner ++ '}' :: rest)) =
      some ([], inner, rest) := by
  rw [findInclude, matchIncludeAt_marker inner rest hne hnb]

theorem subIncludesGo_nil
    (render : Fs → FsPath → FsPath → List FsPath → Except RenderError (Fs × List FsPath))
    (tpl snip : FsPath) (fuel : Nat) (fs : Fs) (seen : List FsPath) :
    subIncludesGo render tpl snip fuel fs seen [] = .ok ([], fs, seen) := by
  cases fuel <;> rfl

theorem subIncludesGo_of_findNone
    (render : Fs → FsPath → FsPath → List FsPath → Except RenderError (Fs × List FsPath))
    (tpl snip : FsPath) (fuel : Nat) (fs : Fs) (seen : List FsPath) (text : Str)
    (h : findInclude text = none) :
    subIncludesGo render tpl snip fuel fs seen text = .ok (text, fs, seen) := by
  cases fuel with
  | zero => rfl
  | succ fuel => rw [subIncludesGo, h]

theorem subVarsGo_of_findNone (vars : VarDict) (tpl : FsPath) (fuel : Nat) (text : Str)
    (h : findVar text = none) :
    subVarsGo vars tpl fuel text = .ok text := by
  cases fuel with
  | zero => rfl
  | succ fuel => rw [subVarsGo, h]

theorem chain_render_ok (N maxD : Nat) :
    ∀ (k i d : Nat) (fs : Fs) (seen : List FsPath),
      i + k = N → d + k ≤ maxD →
      (∀ j, j ≤ N → fsRead fs (chainTplPath j) = some (chainDoc N j)) →
      (∀ j, i ≤ j → chainTplPath j ∉ seen) →
      ∃ fs' seen',
        renderGo (maxD + 1 - d) fs (chainTplPath i) (chainOutPath i) chainSnip []
          seen d maxD = .ok (fs', seen') ∧
        (∀ j, j ≤ N → fsRead fs' (chainTplPath j) = some (chainDoc N j)) ∧
        fsRead fs' (chainOutPath i) = some "done".data := by
  intro k
  induction k with
  | zero =>
    intro i d fs seen hik hdk hreads hseen
    have hdm : ¬ maxD < d := by omega
    have hfuel : maxD + 1 - d = (maxD - d) + 1 := by omega
    have hdoc : chainDoc N i = "done".data := by
      unfold chainDoc
      rw [if_neg (by omega)]
    refine ⟨fsWrite fs (chainOutPath i) "done".data, chainTplPath i :: seen, ?_, ?_, ?_⟩
    · rw [hfuel, renderGo, canonPath_chainTpl, if_neg hdm,
        if_neg (by simpa using hseen i (by omega)), hreads i (by omega)]
      dsimp only
      rw [hdoc, subIncludesGo_of_findNone _ _ _ _ _ _ "done".data (by decide)]
      dsimp only
      rw [subVarsGo_of_findNone [] (chainTplPath i) _ "done".data (by decide)]
      dsimp only
      rw [canonPath_chainOut]
    · intro j hj
      rw [fsRead_fsWrite_ne fs (chainOutPath i) (chainTplPath j) "done".data
        (fun hh => chainOutPath_ne_chainTplPath i j hh.symm)]
      exact hreads j hj
    · exact fsRead_fsWrite_self fs (chainOutPath i) "done".data
  | succ k ih =>
    intro i d fs seen hik hdk hreads hseen
    have hiN : i < N := by omega
    have hdm : ¬ maxD < d := by omega
    have hfuel : maxD + 1 - d = (maxD - d) + 1 := by omega
    have hdoc : chainDoc N i =
        '{' :: 'f' :: 'i' :: 'l' :: 'e' :: ':' :: (cname (i + 1) ++ '}' :: []) := by
      unfold chainDoc
      rw [if_pos hiN]
    have hfind : findInclude (chainDoc N i) = some ([], cname (i + 1), []) := by
      rw [hdoc]
      exact findInclude_marker (cname (i + 1)) [] (cname_ne_nil _) (no_rbrace_cname _)
    obtain ⟨fs1, seen1, hrec, hreads1, hout1⟩ :=
      ih (i + 1) (d + 1) fs (chainTplPath i :: seen) (by omega) (by omega) hreads
        (fun j hj => by
          rw [List.mem_cons]
          push_neg
          exact ⟨fun hh => absurd (chainTplPath_inj j i hh) (by omega),
            hseen j (by omega)⟩)
    have hrec' : renderGo (maxD - d) fs (chainTplPath (i + 1)) (chainOutPath (i + 1))
        chainSnip [] (chainTplPath i :: seen) (d + 1) maxD = .ok (fs1, seen1) := by
      rw [show maxD - d = maxD + 1 - (d + 1) by omega]
      exact hrec
    refine ⟨fsWrite fs1 (chainOutPath i) "done".data, seen1, ?_, ?_, ?_⟩
    · rw [hfuel, renderGo, canonPath_chainTpl, if_neg hdm,
        if_neg (by simpa using hseen i (by omega)), hreads i (by omega)]
      dsimp only
      rw [subIncludesGo, hfind]
      dsimp only
      have hinc : includeOne
          (fun fs2 tpl2 out2 seen2 =>
            renderGo (maxD - d) fs2 tpl2 out2 chainSnip [] seen2 (d + 1) maxD)
          fs (chainTplPath i :: seen) (chainTplPath i) chainSnip (cname (i + 1)) =
          .ok ("done".data, fs1, seen1) := by
        unfold includeOne
        dsimp only
        rw [chain_resolve i, fileNameOf_chainTpl, hasTpl_cname]
        rw [if_pos rfl, tplOutPath_chainTpl, hrec']
        dsimp only
        rw [canonPath_chainOut, hout1]
      rw [hinc]
      dsimp only
      rw [subIncludesGo_nil]
      dsimp only
      rw [List.nil_append, List.append_nil]
      rw [subVarsGo_of_findNone [] (chainTplPath i) _ "done".data (by decide)]
      dsimp only
      rw [canonPath_chainOut]
    · intro j hj
      rw [fsRead_fsWrite_ne fs1 (chainOutPath i) (chainTplPath j) "done".data
        (fun hh => chainOutPath_ne_chainTplPath i j hh.symm)]
      exact hreads1 j hj
    · exact fsRead_fsWrite_self fs1 (chainOutPath i) "done".data

theorem chain_render_depth (N maxD : Nat) :
    ∀ (k i d : Nat) (fs : Fs) (seen : List FsPath),
      i + k = N → maxD < d + k →
      (∀ j, j ≤ N → fsRead fs (chainTplPath j) = some (chainDoc N j)) →
      (∀ j, i ≤ j → chainTplPath j ∉ seen) →
      ∃ p, renderGo (maxD + 1 - d) fs (chainTplPath i) (chainOutPath i) chainSnip []
        seen d maxD = .error (.depthExceeded p) := by
  intro k
  induction k with
  | zero =>
    intro i d fs seen hik hdk hreads hseen
    have hd : maxD < d := by omega
    have hfz : maxD + 1 - d = 0 := by omega
    refine ⟨chainTplPath i, ?_⟩
    rw [hfz, renderGo, if_pos hd]
  | succ k ih =>
    intro i d fs seen hik hdk hreads hseen
    by_cases hd : maxD < d
    · have hfz : maxD + 1 - d = 0 := by omega
      refine ⟨chainTplPath i, ?_⟩
      rw [hfz, renderGo, if_pos hd]
    · have hiN : i < N := by omega
      have hfuel : maxD + 1 - d = (maxD - d) + 1 := by omega
      have hdoc : chainDoc N i =
          '{' :: 'f' :: 'i' :: 'l' :: 'e' :: ':' :: (cname (i + 1) ++ '}' :: []) := by
        unfold chainDoc
        rw [if_pos hiN]
      have hfind : findInclude (chainDoc N i) = some ([], cname (i + 1), []) := by
        rw [hdoc]
        exact findInclude_marker (cname (i + 1)) [] (cname_ne_nil _) (no_rbrace_cname _)
      obtain ⟨p, herr⟩ :=
        ih (i + 1) (d + 1) fs (chainTplPath i :: seen) (by omega) (by omega) hreads
          (fun j hj => by
            rw [List.mem_cons]
            push_neg
            exact ⟨fun hh => absurd (chainTplPath_inj j i hh) (by omega),
              hseen j (by omega)⟩)
      have herr' : renderGo (maxD - d) fs (chainTplPath (i + 1)) (chainOutPath (i + 1))
          chainSnip [] (chainTplPath i :: seen) (d + 1) maxD =
          .error (.depthExceeded p) := by
        rw [show maxD - d = maxD + 1 - (d + 1) by omega]
        exact herr
      refine ⟨p, ?_⟩
      rw [hfuel, renderGo, canonPath_chainTpl, if_neg hd,
        if_neg (by simpa using hseen i (by omega)), hreads i (by omega)]
      dsimp only
      rw [subIncludesGo, hfind]
      dsimp only
      have hinc : includeOne
          (fun fs2 tpl2 out2 seen2 =>
            renderGo (maxD - d) fs2 tpl2 out2 chainSnip [] seen2 (d + 1) maxD)
          fs (chainTplPath i :: seen) (chainTplPath i) chainSnip (cname (i + 1)) =
          .error (.depthExceeded p) := by
        unfold includeOne
        dsimp only
        rw [chain_resolve i, fileNameOf_chainTpl, hasTpl_cname]
        rw [if_pos rfl, tplOutPath_chainTpl, herr']
      rw [hinc]

/-- C3: depth limiting on an acyclic chain.  `chainFs N` is a chain of N nested
    template includes (template 0 includes template 1 … includes template N,
    whose body is plain text), all paths distinct, so the only possible failure
    is the depth bound.  Rendering the chain head succeeds whenever N ≤ maxDepth
    (in particular when N equals the maximum) and fails with a depth-exceeded
    error whenever N > maxDepth — independently of cycle detection, since the
    chain is acyclic. -/
theorem C3_depth_limit :
    ∀ (N maxD : Nat),
      (N ≤ maxD →
        ∃ fs' seen', render_template (chainFs N) (chainTplPath 0) (chainOutPath 0)
          chainSnip [] maxD = .ok (fs', seen') ∧
          fsRead fs' (chainOutPath 0) = some "done".data) ∧
      (maxD < N →
        ∃ p, render_template (chainFs N) (chainTplPath 0) (chainOutPath 0)
          chainSnip [] maxD = .error (.depthExceeded p)) := by
  intro N maxD
  constructor
  · intro h
    obtain ⟨fs', seen', heq, _, hout⟩ :=
      chain_render_ok N maxD N 0 0 (chainFs N) [] (by omega) (by omega)
        (fun j hj => chainFs_read N j hj) (fun j _ => by simp)
    exact ⟨fs', seen', by simpa [render_template] using heq, hout⟩
  · intro h
    obtain ⟨p, heq⟩ :=
      chain_render_depth N maxD N 0 0 (chainFs N) [] (by omega) (by omega)
        (fun j hj => chainFs_read N j hj) (fun j _ => by simp)
    exact ⟨p, by simpa [render_template] using heq⟩

/-- C3 (witness): a 2-chain at maxDepth 2 succeeds; a 1-chain at maxDepth 0
    fails with the depth error. -/
theorem C3_depth_limit_witness :
    (∃ fs' seen', render_template (chainFs 2) (chainTplPath 0) (chainOutPath 0)
      chainSnip [] 2 = .ok (fs', seen') ∧
      fsRead fs' (chainOutPath 0) = some "done".data) ∧
    (∃ p, render_template (chainFs 1) (chainTplPath 0) (chainOutPath 0)
      chainSnip [] 0 = .error (.depthExceeded p)) :=
  ⟨(C3_depth_limit 2 2).1 (by decide), (C3_depth_limit 1 0).2 (by decide)⟩
